import Mathlib

/-!
# Verification of the `bruno-query` query-parameter codec

A shallow embedding, in Lean 4, of the `BrunoQuery` class of the
`ts-bruno-query` repository (the extended variant in `src/unnamed/part_002`,
which carries `offset`/`perPage`, alias keys, sort/filter deduplication and
JSON support; the reduced variant in `src/src/index.ts` shares the relevant
method bodies verbatim where both claims cite it).

JavaScript runtime values are modelled by the inductive `JValue`.  Numbers
are modelled by exact rationals (plus the two infinities); all decimal
literals that the codec's number parsing can produce are represented
exactly, so no floating-point rounding is involved in any theorem below.
The browser built-ins used by the source (`encodeURIComponent`,
`decodeURIComponent`, `URLSearchParams`, `parseFloat`, `parseInt`,
`JSON.parse`, `JSON.stringify`) are embedded as executable Lean functions
over lists of characters, following the WHATWG/ECMAScript algorithms the
way the source exercises them.
-/

set_option maxHeartbeats 4000000
set_option maxRecDepth 100000

namespace Bruno

/-- Fuelled Euclidean gcd (structural recursion, so the kernel can reduce
it — `Nat.gcd`'s well-founded recursion cannot be evaluated by `decide`).
Fuel `a + 1` always suffices since the first argument strictly
decreases. -/
def gcdF : Nat → Nat → Nat → Nat
  | 0, _, b => b
  | fuel + 1, a, b => if a = 0 then b else gcdF fuel (b % a) a

def gcdN (a b : Nat) : Nat := gcdF (a + 1) a b

/-- An exact rational with kernel-computable arithmetic, kept in lowest
terms with a positive denominator by every constructor below, so that
structural equality coincides with numeric equality. -/
structure JQ where
  num : Int
  den : Nat
  deriving DecidableEq, Repr

namespace JQ

/-- Normalize a fraction (positive denominator expected). -/
def mk' (n : Int) (d : Nat) : JQ :=
  if d = 0 then ⟨0, 1⟩
  else
    let g := gcdN n.natAbs d
    ⟨n / (g : Int), d / g⟩

/-- Normalize a fraction with a possibly negative denominator. -/
def mkS (n d : Int) : JQ :=
  if d < 0 then mk' (-n) (-d).toNat else mk' n d.toNat

def ofNat (n : Nat) : JQ := ⟨n, 1⟩

def add (a b : JQ) : JQ := mk' (a.num * b.den + b.num * a.den) (a.den * b.den)

def mul (a b : JQ) : JQ := mk' (a.num * b.num) (a.den * b.den)

def div (a b : JQ) : JQ := mkS (a.num * b.den) (a.den * b.num)

def neg (a : JQ) : JQ := ⟨-a.num, a.den⟩

/-- Multiply by `10^e` for an integer `e`. -/
def mulPow10 (a : JQ) (e : Int) : JQ :=
  if 0 ≤ e then mul a ⟨(10 : Nat) ^ e.toNat, 1⟩
  else div a ⟨(10 : Nat) ^ (-e).toNat, 1⟩

instance (n : Nat) : OfNat JQ n := ⟨⟨n, 1⟩⟩

instance : LT JQ := ⟨fun a b => a.num * b.den < b.num * a.den⟩

instance (a b : JQ) : Decidable (a < b) :=
  inferInstanceAs (Decidable (a.num * b.den < b.num * a.den))

end JQ

/-- A JavaScript number as produced by the codec: an exact finite rational
or one of the two infinities.  (`NaN` never flows into a stored `JValue`:
`parseValue` filters it out and JSON has no `NaN` literal; where the source
can hold `NaN` — the pagination fields — the separate `PagNum` type below
has an explicit `nan` constructor.) -/
inductive JNum where
  | fin (q : JQ)
  | posInf
  | negInf
  deriving DecidableEq, Repr

/-- A JavaScript runtime value as handled by the codec: `undefined`,
`null`, booleans, numbers, strings, arrays and plain objects (ordered
association lists of own enumerable properties). -/
inductive JValue where
  | undef
  | null
  | bool (b : Bool)
  | num (n : JNum)
  | str (s : String)
  | arr (elems : List JValue)
  | obj (fields : List (String × JValue))
  deriving Repr

mutual

def JValue.beq : JValue → JValue → Bool
  | .undef, .undef => true
  | .null, .null => true
  | .bool a, .bool b => a == b
  | .num a, .num b => a == b
  | .str a, .str b => a == b
  | .arr a, .arr b => JValue.beqList a b
  | .obj a, .obj b => JValue.beqObj a b
  | _, _ => false

def JValue.beqList : List JValue → List JValue → Bool
  | [], [] => true
  | a :: as, b :: bs => JValue.beq a b && JValue.beqList as bs
  | _, _ => false

def JValue.beqObj : List (String × JValue) → List (String × JValue) → Bool
  | [], [] => true
  | (ka, va) :: as, (kb, vb) :: bs =>
      ka == kb && JValue.beq va vb && JValue.beqObj as bs
  | _, _ => false

end

mutual

theorem JValue.beq_iff : ∀ a b : JValue, JValue.beq a b = true ↔ a = b
  | .undef, b => by cases b <;> simp [JValue.beq]
  | .null, b => by cases b <;> simp [JValue.beq]
  | .bool x, b => by cases b <;> simp [JValue.beq]
  | .num x, b => by cases b <;> simp [JValue.beq]
  | .str x, b => by cases b <;> simp [JValue.beq]
  | .arr x, b => by
      cases b <;> simp [JValue.beq]
      exact JValue.beqList_iff x _
  | .obj x, b => by
      cases b <;> simp [JValue.beq]
      exact JValue.beqObj_iff x _

theorem JValue.beqList_iff : ∀ a b : List JValue, JValue.beqList a b = true ↔ a = b
  | [], b => by cases b <;> simp [JValue.beqList]
  | x :: xs, b => by
      cases b with
      | nil => simp [JValue.beqList]
      | cons y ys =>
          simp [JValue.beqList, JValue.beq_iff x y, JValue.beqList_iff xs ys]

theorem JValue.beqObj_iff : ∀ a b : List (String × JValue),
    JValue.beqObj a b = true ↔ a = b
  | [], b => by cases b <;> simp [JValue.beqObj]
  | (k, v) :: xs, b => by
      cases b with
      | nil => simp [JValue.beqObj]
      | cons y ys =>
          obtain ⟨k2, v2⟩ := y
          simp [JValue.beqObj, JValue.beq_iff v v2, JValue.beqObj_iff xs ys, and_assoc]

end

instance : DecidableEq JValue := fun a b =>
  decidable_of_iff (JValue.beq a b = true) (JValue.beq_iff a b)

/-- JavaScript truthiness of a runtime value.  Falsy values: `undefined`,
`null`, `false`, `0`, `NaN` (not representable here), the empty string. -/
def jsTruthy : JValue → Bool
  | .undef => false
  | .null => false
  | .bool b => b
  | .num (.fin q) => q != 0
  | .num _ => true
  | .str s => s ≠ ""
  | .arr _ => true
  | .obj _ => true

/-- Multiplicity of the factor `p` in `n` (fuelled; fuel `n` is always
enough since each division shrinks a positive `n`). -/
def factorCount (p : Nat) : Nat → Nat → Nat
  | 0, _ => 0
  | fuel + 1, n => if 2 ≤ p ∧ 0 < n ∧ n % p = 0 then factorCount p fuel (n / p) + 1 else 0

set_option linter.unusedVariables false in
/-- Decimal digit string of a natural number (no sign). -/
def natDigits (n : Nat) : String := toString n

/-- ECMAScript `Number::toString` restricted to the rationals the codec can
hold.  A rational whose denominator divides a power of ten is rendered as
the exact decimal expansion (this matches the double-to-shortest-decimal
rendering for every value the codec's own number parsing produces); other
denominators — unreachable from decimal input — are rendered as
`num/den`.  Exponential notation for |x| ≥ 1e21 or < 1e-6 is not modelled
(no claim exercises such magnitudes). -/
def ratToString (q : JQ) : String :=
  let sign := if q.num < 0 then "-" else ""
  let n := q.num.natAbs
  let d := q.den
  let k2 := factorCount 2 d d
  let k5 := factorCount 5 d d
  if d / (2 ^ k2 * 5 ^ k5) = 1 then
    let k := max k2 k5
    let scaled := (n * 10 ^ k) / d
    if k = 0 then sign ++ natDigits scaled
    else
      let s := natDigits scaled
      let s := if s.length ≤ k then String.mk (List.replicate (k + 1 - s.length) '0') ++ s else s
      sign ++ String.mk (s.data.take (s.length - k)) ++ "." ++ String.mk (s.data.drop (s.length - k))
  else sign ++ natDigits n ++ "/" ++ natDigits d

/-- `String(n)` for a JavaScript number. -/
def numToString : JNum → String
  | .fin q => ratToString q
  | .posInf => "Infinity"
  | .negInf => "-Infinity"

mutual

/-- `String(v)` — the ECMAScript ToString coercion on the values the codec
can hold.  Arrays stringify as the comma-join of their elements with
`null`/`undefined` elements rendering empty; plain objects as
`[object Object]`. -/
def jsDisplay : JValue → String
  | .undef => "undefined"
  | .null => "null"
  | .bool b => if b then "true" else "false"
  | .num n => numToString n
  | .str s => s
  | .arr l => String.intercalate "," (jsDisplayElems l)
  | .obj _ => "[object Object]"

/-- Elements of an array under `Array.prototype.toString`:
`null`/`undefined` render empty. -/
def jsDisplayElems : List JValue → List String
  | [] => []
  | v :: vs =>
    (if v = .undef ∨ v = .null then "" else jsDisplay v) :: jsDisplayElems vs

end

/-- Two-digit uppercase hex of a byte value. -/
def hexByte (n : Nat) : String :=
  let dig := fun (d : Nat) => if d < 10 then Char.ofNat (48 + d) else Char.ofNat (55 + d)
  String.mk [dig ((n / 16) % 16), dig (n % 16)]

/-- Lower-case four-digit hex (for JSON `\u00XX` escapes of control chars). -/
def hexLow (d : Nat) : Char := if d % 16 < 10 then Char.ofNat (48 + d % 16) else Char.ofNat (87 + d % 16)

/-- JSON string-literal escaping as performed by `JSON.stringify`. -/
def jsonEscapeChar (c : Char) : String :=
  if c = '"' then "\\\""
  else if c = '\\' then "\\\\"
  else if c = '\x08' then "\\b"
  else if c = '\x0c' then "\\f"
  else if c = '\n' then "\\n"
  else if c = '\r' then "\\r"
  else if c = '\t' then "\\t"
  else if c.toNat < 0x20 then "\\u00" ++ String.mk [hexLow (c.toNat / 16), hexLow c.toNat]
  else String.mk [c]

mutual

/-- `JSON.stringify` on the values the codec passes to it (used by the
filter-deduplication identity).  `undefined` at top level yields the token
`undefined` when interpolated in a template literal, which is how the
source uses it, so it is rendered as that string here; infinities yield
`null` as in JS. -/
def jsonStringify : JValue → String
  | .undef => "undefined"
  | .null => "null"
  | .bool b => if b then "true" else "false"
  | .num (.fin q) => ratToString q
  | .num _ => "null"
  | .str s => "\"" ++ String.join (s.data.map jsonEscapeChar) ++ "\""
  | .arr l => "[" ++ String.intercalate "," (jsonStringifyList l) ++ "]"
  | .obj fs => "\x7b" ++ String.intercalate "," (jsonStringifyObj fs) ++ "\x7d"

def jsonStringifyList : List JValue → List String
  | [] => []
  | v :: vs => jsonStringify v :: jsonStringifyList vs

def jsonStringifyObj : List (String × JValue) → List String
  | [] => []
  | (k, v) :: fs =>
    ("\"" ++ String.join (k.data.map jsonEscapeChar) ++ "\":" ++ jsonStringify v) ::
      jsonStringifyObj fs

end

/-! ## UTF-8 and percent-encoding built-ins -/

/-- UTF-8 encoding of one Unicode scalar value. -/
def utf8EncodeChar (c : Char) : List Nat :=
  let n := c.toNat
  if n < 0x80 then [n]
  else if n < 0x800 then [0xC0 + n / 0x40, 0x80 + n % 0x40]
  else if n < 0x10000 then
    [0xE0 + n / 0x1000, 0x80 + (n / 0x40) % 0x40, 0x80 + n % 0x40]
  else
    [0xF0 + n / 0x40000, 0x80 + (n / 0x1000) % 0x40, 0x80 + (n / 0x40) % 0x40, 0x80 + n % 0x40]

/-- Is `b` a UTF-8 continuation byte in the closed range `[lo, hi]`? -/
def contByteIn (lo hi b : Nat) : Bool := lo ≤ b && b ≤ hi

/-- Lenient UTF-8 decoding with U+FFFD replacement, as in the WHATWG
decoder used by `URLSearchParams` (malformed bytes become replacement
characters instead of raising).  Fuelled so the recursion is structural
(a malformed lead byte consumes one byte and resumes); fuel
`length + 1` always suffices. -/
def utf8DecodeLenientF : Nat → List Nat → List Char
  | 0, _ => []
  | _ + 1, [] => []
  | fuel + 1, b :: rest =>
    if b < 0x80 then Char.ofNat b :: utf8DecodeLenientF fuel rest
    else if 0xC2 ≤ b ∧ b ≤ 0xDF then
      match rest with
      | c1 :: r2 =>
        if contByteIn 0x80 0xBF c1 then
          Char.ofNat ((b - 0xC0) * 0x40 + (c1 - 0x80)) :: utf8DecodeLenientF fuel r2
        else '�' :: utf8DecodeLenientF fuel rest
      | _ => ['�']
    else if 0xE0 ≤ b ∧ b ≤ 0xEF then
      match rest with
      | c1 :: c2 :: r2 =>
        let lo1 := if b = 0xE0 then 0xA0 else 0x80
        let hi1 := if b = 0xED then 0x9F else 0xBF
        if contByteIn lo1 hi1 c1 && contByteIn 0x80 0xBF c2 then
          Char.ofNat ((b - 0xE0) * 0x1000 + (c1 - 0x80) * 0x40 + (c2 - 0x80)) ::
            utf8DecodeLenientF fuel r2
        else '�' :: utf8DecodeLenientF fuel rest
      | _ => '�' :: utf8DecodeLenientF fuel rest
    else if 0xF0 ≤ b ∧ b ≤ 0xF4 then
      match rest with
      | c1 :: c2 :: c3 :: r2 =>
        let lo1 := if b = 0xF0 then 0x90 else 0x80
        let hi1 := if b = 0xF4 then 0x8F else 0xBF
        if contByteIn lo1 hi1 c1 && contByteIn 0x80 0xBF c2 && contByteIn 0x80 0xBF c3 then
          Char.ofNat ((b - 0xF0) * 0x40000 + (c1 - 0x80) * 0x1000 +
            (c2 - 0x80) * 0x40 + (c3 - 0x80)) :: utf8DecodeLenientF fuel r2
        else '�' :: utf8DecodeLenientF fuel rest
      | _ => '�' :: utf8DecodeLenientF fuel rest
    else '�' :: utf8DecodeLenientF fuel rest

def utf8DecodeLenient (bytes : List Nat) : List Char :=
  utf8DecodeLenientF (bytes.length + 1) bytes

/-- Characters `encodeURIComponent` leaves unescaped:
`A-Z a-z 0-9 - _ . ! ~ * ' ( )`. -/
def uriUnreserved (c : Char) : Bool :=
  c.isAlpha || c.isDigit ||
    c = '-' || c = '_' || c = '.' || c = '!' || c = '~' || c = '*' ||
    c = '\'' || c = '(' || c = ')'

/-- Characters the `application/x-www-form-urlencoded` serializer leaves
unescaped: `A-Z a-z 0-9 * - . _` (space becomes `+`). -/
def formSafe (c : Char) : Bool :=
  c.isAlpha || c.isDigit || c = '*' || c = '-' || c = '.' || c = '_'

/-- `%XX` escape of one byte, uppercase hex. -/
def pctByte (b : Nat) : List Char := '%' :: (hexByte b).data

/-- `encodeURIComponent` (character level; lone surrogates, on which JS
raises, are not representable in Lean `String`). -/
def encodeURIComponentL (l : List Char) : List Char :=
  l.flatMap fun c =>
    if uriUnreserved c then [c] else (utf8EncodeChar c).flatMap pctByte

def encodeURIComponent (s : String) : String := String.mk (encodeURIComponentL s.data)

/-- One form-urlencoded-serialized character. -/
def formEncodeChar (c : Char) : List Char :=
  if c = ' ' then ['+']
  else if formSafe c then [c]
  else (utf8EncodeChar c).flatMap pctByte

/-- The `application/x-www-form-urlencoded` serializer for one string
(used by `URLSearchParams.toString`). -/
def formEncodeL (l : List Char) : List Char := l.flatMap formEncodeChar

def formEncode (s : String) : String := String.mk (formEncodeL s.data)

/-- Hexadecimal digit value (both cases), by character code. -/
def hexVal (c : Char) : Option Nat :=
  let n := c.toNat
  if 48 ≤ n ∧ n ≤ 57 then some (n - 48)
  else if 65 ≤ n ∧ n ≤ 70 then some (n - 55)
  else if 97 ≤ n ∧ n ≤ 102 then some (n - 87)
  else none

/-- Percent-decoding to a byte sequence, lenient: a `%` not followed by two
hex digits is kept verbatim (WHATWG behavior). Non-escape characters
contribute their UTF-8 bytes. -/
def pctDecodeBytesLenient : List Char → List Nat
  | [] => []
  | '%' :: h1 :: h2 :: rest =>
    match hexVal h1, hexVal h2 with
    | some a, some b => (a * 16 + b) :: pctDecodeBytesLenient rest
    | _, _ => utf8EncodeChar '%' ++ pctDecodeBytesLenient (h1 :: h2 :: rest)
  | c :: rest => utf8EncodeChar c ++ pctDecodeBytesLenient rest

/-- Total model of `decodeURIComponent`.  JavaScript raises `URIError` on
malformed input; this total variant decodes leniently instead.  The source
only ever applies `decodeURIComponent` to components of
`URLSearchParams.toString()` output, which `decodeURIComponentE` below
proves are always well-formed, so the two models agree on every reachable
input. -/
def decodeURIComponent (s : String) : String :=
  String.mk (utf8DecodeLenient (pctDecodeBytesLenient s.data))

/-- Split a character list at every occurrence of `sep` (n separators give
n+1 pieces). -/
def splitOnCharL (sep : Char) : List Char → List (List Char)
  | [] => [[]]
  | c :: rest =>
    match splitOnCharL sep rest with
    | h :: t => if c = sep then [] :: h :: t else (c :: h) :: t
    | [] => if c = sep then [[], []] else [[c]]

/-- Split at the first occurrence of `sep`: characters before it, and
(optionally) the characters after it. -/
def splitAtFirst (sep : Char) : List Char → List Char × Option (List Char)
  | [] => ([], none)
  | c :: rest =>
    if c = sep then ([], some rest)
    else
      let (a, b) := splitAtFirst sep rest
      (c :: a, b)

/-- Map `+` to space (the form-urlencoded value decoding step). -/
def plusToSpace (l : List Char) : List Char :=
  l.map fun c => if c = '+' then ' ' else c

/-- A `URLSearchParams` object: the ordered list of decoded name/value
pairs. -/
def URLSearchParams := List (String × String)

/-- The `URLSearchParams(init)` constructor on a query string: split on
`&`, drop empty pieces, split each piece at the first `=` (a piece with no
`=` is a name with empty value), form-urldecode both halves. -/
def uspParse (s : String) : URLSearchParams :=
  (splitOnCharL '&' s.data).filterMap fun piece =>
    if piece.isEmpty then none
    else
      let (k, v) := splitAtFirst '=' piece
      some (String.mk (utf8DecodeLenient (pctDecodeBytesLenient (plusToSpace k))),
            String.mk (utf8DecodeLenient (pctDecodeBytesLenient (plusToSpace (v.getD [])))))

/-- `params.get(name)`: the first value for `name`, or null (`none`). -/
def uspGet (ps : URLSearchParams) (name : String) : Option String :=
  (List.find? (fun p => p.1 = name) ps).map (·.2)

/-- `params.getAll(name)`. -/
def uspGetAll (ps : URLSearchParams) (name : String) : List String :=
  ps.filterMap fun p => if p.1 = name then some p.2 else none

/-- Join character lists with a separator character. -/
def intercalateCh (sep : Char) : List (List Char) → List Char
  | [] => []
  | [l] => l
  | l :: ls => l ++ sep :: intercalateCh sep ls

/-- `params.toString()`: the form-urlencoded serializer — each pair as
`serialized(name) "=" serialized(value)`, joined with `&`. -/
def uspToString (ps : URLSearchParams) : String :=
  String.mk (intercalateCh '&'
    (ps.map fun p => formEncodeL p.1.data ++ '=' :: formEncodeL p.2.data))

/-! ## `parseFloat` and `parseInt` -/

/-- Digit list to natural number. -/
def digitsToNat (l : List Char) : Nat :=
  l.foldl (fun acc c => acc * 10 + (c.toNat - 48)) 0

/-- ECMAScript `parseFloat`: skip leading whitespace, parse the longest
prefix that is a decimal literal (optional sign, digits, optional
fraction, optional exponent) or a signed `Infinity`; `none` models `NaN`
(no valid prefix).  Decimal values are represented exactly (see the module
header). -/
def parseFloatJS (s : String) : Option JNum :=
  let l := s.data.dropWhile Char.isWhitespace
  let (neg, l) :=
    match l with
    | '-' :: r => (true, r)
    | '+' :: r => (false, r)
    | _ => (false, l)
  if List.isPrefixOf "Infinity".data l then
    some (if neg then .negInf else .posInf)
  else
    let (d1, r1) := l.span Char.isDigit
    let (d2, r2) :=
      match r1 with
      | '.' :: rr => rr.span Char.isDigit
      | _ => ([], r1)
    if d1.isEmpty && d2.isEmpty then none
    else
      let expPart : Int :=
        match r2 with
        | 'e' :: rr | 'E' :: rr =>
          let (eneg, rr2) :=
            match rr with
            | '-' :: r3 => (true, r3)
            | '+' :: r3 => (false, r3)
            | _ => (false, rr)
          let (ed, _) := rr2.span Char.isDigit
          if ed.isEmpty then 0 else (if eneg then -1 else 1) * (digitsToNat ed : Int)
        | _ => 0
      let mant : JQ := JQ.add (JQ.ofNat (digitsToNat d1))
        (JQ.div (JQ.ofNat (digitsToNat d2)) (JQ.ofNat (10 ^ d2.length)))
      let mag : JQ := JQ.mulPow10 mant expPart
      some (.fin (if neg then JQ.neg mag else mag))

/-- A pagination-field number: the source can store `NaN` there (via
`parseInt` on garbage), so the type carries it explicitly. -/
inductive PagNum where
  | num (q : JQ)
  | nan
  deriving DecidableEq, Repr

/-- ECMAScript `parseInt(s, 10)`: skip whitespace, optional sign, longest
digit prefix; `nan` when there is none. -/
def parseIntJS (s : String) : PagNum :=
  let l := s.data.dropWhile Char.isWhitespace
  let (neg, l) :=
    match l with
    | '-' :: r => (true, r)
    | '+' :: r => (false, r)
    | _ => (false, l)
  let (d, _) := l.span Char.isDigit
  if d.isEmpty then .nan
  else .num (if neg then JQ.neg (JQ.ofNat (digitsToNat d)) else JQ.ofNat (digitsToNat d))

/-- Truthiness of a pagination value (`0` and `NaN` are falsy). -/
def pagTruthy : PagNum → Bool
  | .num q => q != 0
  | .nan => false

/-- `v < 0` on a pagination value (`NaN < 0` is false). -/
def pagNeg : PagNum → Bool
  | .num q => q < 0
  | .nan => false

/-- `String(v)` for a pagination value. -/
def pagToString : PagNum → String
  | .num q => ratToString q
  | .nan => "NaN"

/-- Pagination value as a `JNum` for object views.  Only ever applied
under a truthiness guard, so the `nan` case (mapped to 0) is unreachable
wherever it is used. -/
def pagToJNum : PagNum → JNum
  | .num q => .fin q
  | .nan => .fin 0

/-! ## The data model (`src/interface.ts`) -/

/-- A sort rule.  `direction` is `"ASC"`/`"DESC"` (the `SortDirection`
enum values are those strings at runtime; the TS type also admits
arbitrary strings). -/
structure SortRule where
  key : String
  direction : String
  deriving DecidableEq, Repr

/-- A canonical filter.  `operator` is the operator's short code (the
`QueryOperator` enum values are those strings at runtime).  `not = none`
models an absent `not` property. -/
structure Filter where
  key : String
  operator : String
  value : JValue
  not : Option Bool := none
  deriving DecidableEq, Repr

/-- A stored filter: either a canonical `Filter` record or the positional
`FilterShorthand` tuple `[key, operator, value, not?]` (`notV = none`
models a length-3 tuple). -/
inductive FilterEntry where
  | record (f : Filter)
  | shorthand (key : String) (op : String) (value : JValue) (notV : Option Bool)
  deriving DecidableEq, Repr

/-- A filter group; `or = none` models an absent `or` property. -/
structure FilterGroup where
  or : Option Bool := none
  filters : List FilterEntry := []
  deriving DecidableEq, Repr

/-- The `optional` payload: a single mapping or an array of mappings. -/
inductive OptionalPayload where
  | single (m : List (String × JValue))
  | multi (l : List (List (String × JValue)))
  deriving DecidableEq, Repr

/-- The private `_params` record; every field can be absent. -/
structure QueryParameter where
  includes : Option (List String) := none
  sort : Option (List SortRule) := none
  filter_groups : Option (List FilterGroup) := none
  limit : Option PagNum := none
  offset : Option PagNum := none
  perPage : Option PagNum := none
  page : Option PagNum := none
  optional : Option OptionalPayload := none
  deriving DecidableEq, Repr

/-- The `_aliasKeysPagination` record (all `null` by default). -/
structure AliasKeysPagination where
  limit : Option String := none
  offset : Option String := none
  perPage : Option String := none
  page : Option String := none
  deriving DecidableEq, Repr

/-- The `BrunoQuery` builder state (`src/unnamed/part_002`). -/
structure BrunoQuery where
  params : QueryParameter := {}
  aliasKeysPagination : AliasKeysPagination := {}
  deriving DecidableEq, Repr

namespace BrunoQuery

def DEFAULT_LIMIT : JQ := 15
def DEFAULT_PAGE : JQ := 1

/-- `new BrunoQuery()`. -/
def new : BrunoQuery := {}

/-- Truthiness of an optional string (the `if (alias)` test). -/
def strOptTruthy : Option String → Bool
  | some s => s ≠ ""
  | none => false

/-! ### Deduplication -/

/-- The canonical identity string
`key + ":" + operator + ":" + JSON.stringify(value) + ":" + not` used by
`deduplicateFilters`, computed from either stored shape. -/
def filterIdentity : FilterEntry → String
  | .record f =>
      f.key ++ ":" ++ f.operator ++ ":" ++ jsonStringify f.value ++ ":" ++
        (if f.not.getD false then "true" else "false")
  | .shorthand k op v n =>
      k ++ ":" ++ op ++ ":" ++ jsonStringify v ++ ":" ++
        (if n.getD false then "true" else "false")

/-- The seen-set loop of `deduplicateFilters`: keep a filter when its
identity has not been seen, scanning left to right. -/
def dedupBy {α : Type} (idf : α → String) (seen : List String) : List α → List α
  | [] => []
  | f :: fs =>
    if idf f ∈ seen then dedupBy idf seen fs
    else f :: dedupBy idf (idf f :: seen) fs

def dedupFiltersGo (seen : List String) (l : List FilterEntry) : List FilterEntry :=
  dedupBy filterIdentity seen l

/-- `deduplicateFilters` (part_002 lines 351–392): empty groups are
returned untouched; otherwise the first occurrence of each identity
survives and the `or` flag is normalized to a definite boolean. -/
def deduplicateFilters (group : FilterGroup) : FilterGroup :=
  if group.filters.isEmpty then group
  else { or := some (group.or.getD false), filters := dedupFiltersGo [] group.filters }

/-- The right-to-left loop of `deduplicateSort`: the source iterates from
the last rule to the first, keeping a key the first time it is seen (i.e.
its last occurrence) and `unshift`ing it onto the result. `l` is the
reversed rule list; `res` accumulates the output. -/
def deduplicateSortGo : List SortRule → List String → List SortRule → List SortRule
  | [], _, res => res
  | r :: rs, seen, res =>
    if r.key ∈ seen then deduplicateSortGo rs seen res
    else deduplicateSortGo rs (r.key :: seen) (r :: res)

/-- `deduplicateSort` (part_002 lines 401–419). -/
def deduplicateSort (sortRules : List SortRule) : List SortRule :=
  if sortRules.isEmpty then sortRules
  else deduplicateSortGo sortRules.reverse [] []

/-! ### Fluent mutators -/

def addArrayIncludes (self : BrunoQuery) (includes : List String) : BrunoQuery :=
  { self with params :=
    { self.params with includes := some (self.params.includes.getD [] ++ includes) } }

def setArrayIncludes (self : BrunoQuery) (includes : List String) : BrunoQuery :=
  { self with params := { self.params with includes := some includes } }

def addArraySort (self : BrunoQuery) (sort : List SortRule) : BrunoQuery :=
  { self with params :=
    { self.params with sort := some (deduplicateSort (self.params.sort.getD [] ++ sort)) } }

def setArraySort (self : BrunoQuery) (sort : List SortRule) : BrunoQuery :=
  { self with params := { self.params with sort := some (deduplicateSort sort) } }

def addArrayFilterGroup (self : BrunoQuery) (groups : List FilterGroup) : BrunoQuery :=
  { self with params :=
    { self.params with
      filter_groups := some (self.params.filter_groups.getD [] ++ groups.map deduplicateFilters) } }

def setArrayFilterGroup (self : BrunoQuery) (groups : List FilterGroup) : BrunoQuery :=
  { self with params :=
    { self.params with filter_groups := some (groups.map deduplicateFilters) } }

/-- `setLimit(limit, alias?)`: `null` removes the field; a negative value
stores `DEFAULT_LIMIT`; a truthy alias is recorded. -/
def setLimit (self : BrunoQuery) (limit : Option PagNum)
    (aliasName : Option String) : BrunoQuery :=
  match limit with
  | none => { self with params := { self.params with limit := none } }
  | some v =>
    let self := { self with params :=
      { self.params with limit := some (if pagNeg v then .num DEFAULT_LIMIT else v) } }
    if strOptTruthy aliasName then
      { self with aliasKeysPagination := { self.aliasKeysPagination with limit := aliasName } }
    else self

/-- `setOffset`: a negative value stores `DEFAULT_PAGE` (sic — the source
clamps offset to the page default, not to 0). -/
def setOffset (self : BrunoQuery) (offset : Option PagNum)
    (aliasName : Option String) : BrunoQuery :=
  match offset with
  | none => { self with params := { self.params with offset := none } }
  | some v =>
    let self := { self with params :=
      { self.params with offset := some (if pagNeg v then .num DEFAULT_PAGE else v) } }
    if strOptTruthy aliasName then
      { self with aliasKeysPagination := { self.aliasKeysPagination with offset := aliasName } }
    else self

/-- `setPerPage`: a negative value stores `DEFAULT_LIMIT`. -/
def setPerPage (self : BrunoQuery) (perPage : Option PagNum)
    (aliasName : Option String) : BrunoQuery :=
  match perPage with
  | none => { self with params := { self.params with perPage := none } }
  | some v =>
    let self := { self with params :=
      { self.params with perPage := some (if pagNeg v then .num DEFAULT_LIMIT else v) } }
    if strOptTruthy aliasName then
      { self with aliasKeysPagination := { self.aliasKeysPagination with perPage := aliasName } }
    else self

/-- `setPage`: a negative value stores `DEFAULT_PAGE`. -/
def setPage (self : BrunoQuery) (page : Option PagNum)
    (aliasName : Option String) : BrunoQuery :=
  match page with
  | none => { self with params := { self.params with page := none } }
  | some v =>
    let self := { self with params :=
      { self.params with page := some (if pagNeg v then .num DEFAULT_PAGE else v) } }
    if strOptTruthy aliasName then
      { self with aliasKeysPagination := { self.aliasKeysPagination with page := aliasName } }
    else self

def setOptional (self : BrunoQuery) (optional : OptionalPayload) : BrunoQuery :=
  { self with params := { self.params with optional := some optional } }

/-- `addOptional`: merge with existing optional parameters (the four
array/object shape combinations of the source). -/
def addOptional (self : BrunoQuery) (optional : OptionalPayload) : BrunoQuery :=
  match self.params.optional, optional with
  | none, o => { self with params := { self.params with optional := some o } }
  | some (.multi a), .multi b =>
    { self with params := { self.params with optional := some (.multi (a ++ b)) } }
  | some (.multi a), .single m =>
    { self with params := { self.params with optional := some (.multi (a ++ [m])) } }
  | some (.single m), .multi b =>
    { self with params := { self.params with optional := some (.multi (m :: b)) } }
  | some (.single a), .single b =>
    { self with params := { self.params with optional := some (.single (mergeObj a b)) } }
where
  /-- `{ ...a, ...b }`: later keys overwrite earlier ones in place. -/
  mergeObj (a b : List (String × JValue)) : List (String × JValue) :=
    b.foldl (fun acc kv =>
      if acc.any (fun p => p.1 = kv.1)
      then acc.map (fun p => if p.1 = kv.1 then kv else p)
      else acc ++ [kv]) a

/-- `reset()`: restore the all-absent state. -/
def reset (_self : BrunoQuery) : BrunoQuery := {}

/-! ### Encoding (`toQueryString`) -/

/-- `handleParseFilter`: normalize a stored filter to a canonical record
(`[key, operator, value, not?]` positions for the shorthand shape). -/
def handleParseFilter : FilterEntry → Filter
  | .record f => f
  | .shorthand k op v n => { key := k, operator := op, value := v, not := n }

/-- The own enumerable properties of a canonical filter record in
insertion order, as built by `handleParseFilter`/`parseFilter`. -/
def filterFields (f : Filter) : List (String × JValue) :=
  [("key", .str f.key), ("operator", .str f.operator), ("value", f.value)] ++
    (match f.not with
     | some b => [("not", .bool b)]
     | none => [])

/-- `handleValue`: push the segments for one key/value.  Arrays emit one
`key[]=` segment per element; `null` emits the literal `null`; booleans
emit `true`/`false`; everything else is coerced to string and
percent-encoded. -/
def handleValue (keyName : String) (value : JValue) : List String :=
  match value with
  | .arr elems => elems.map fun v => keyName ++ "[]=" ++ encodeURIComponent (jsDisplay v)
  | .null => [keyName ++ "=null"]
  | .bool b => [keyName ++ "=" ++ (if b then "true" else "false")]
  | v => [keyName ++ "=" ++ encodeURIComponent (jsDisplay v)]

def handleIncludes (self : BrunoQuery) : List String :=
  match self.params.includes with
  | none => []
  | some l =>
    if l.isEmpty then [] else l.map fun i => "includes[]=" ++ encodeURIComponent i

def handleSort (self : BrunoQuery) : List String :=
  match self.params.sort with
  | none => []
  | some l =>
    if l.isEmpty then []
    else l.enum.flatMap fun p =>
      ["sort[" ++ toString p.1 ++ "][key]=" ++ encodeURIComponent p.2.key,
       "sort[" ++ toString p.1 ++ "][direction]=" ++ p.2.direction]

/-- The `alias || "default"` key choice (`""` is falsy). -/
def aliasOr (o : Option String) (dflt : String) : String :=
  match o with
  | some s => if s = "" then dflt else s
  | none => dflt

/-- The `limit` block of `handleLimitPage`: pushed exactly when the
stored value is truthy. -/
def limitSeg (self : BrunoQuery) : List String :=
  match self.params.limit with
  | some v =>
    if pagTruthy v
    then [aliasOr self.aliasKeysPagination.limit "limit" ++ "=" ++ pagToString v] else []
  | none => []

def offsetSeg (self : BrunoQuery) : List String :=
  match self.params.offset with
  | some v =>
    if pagTruthy v
    then [aliasOr self.aliasKeysPagination.offset "offset" ++ "=" ++ pagToString v] else []
  | none => []

def perPageSeg (self : BrunoQuery) : List String :=
  match self.params.perPage with
  | some v =>
    if pagTruthy v
    then [aliasOr self.aliasKeysPagination.perPage "perPage" ++ "=" ++ pagToString v] else []
  | none => []

def pageSeg (self : BrunoQuery) : List String :=
  match self.params.page with
  | some v =>
    if pagTruthy v
    then [aliasOr self.aliasKeysPagination.page "page" ++ "=" ++ pagToString v] else []
  | none => []

/-- `handleLimitPage`: the four sequential pushes of the source, in the
order limit, offset, perPage, page. -/
def handleLimitPage (self : BrunoQuery) : List String :=
  limitSeg self ++ offsetSeg self ++ perPageSeg self ++ pageSeg self

def handleFilters (group : FilterGroup) (groupIndex : Nat) : List String :=
  group.filters.enum.flatMap fun p =>
    let parsed := handleParseFilter p.2
    (filterFields parsed).flatMap fun kv =>
      handleValue ("filter_groups[" ++ toString groupIndex ++ "][filters][" ++
        toString p.1 ++ "][" ++ kv.1 ++ "]") kv.2

def handleFilterGroups (self : BrunoQuery) : List String :=
  match self.params.filter_groups with
  | none => []
  | some gs =>
    if gs.isEmpty then []
    else gs.enum.flatMap fun p =>
      (if p.2.or.getD false
       then ["filter_groups[" ++ toString p.1 ++ "][or]=true"] else []) ++
      handleFilters p.2 p.1

def handleOptionalObject (optionalObj : List (String × JValue)) : List String :=
  optionalObj.flatMap fun kv =>
    match kv.2 with
    | .obj nested => nested.flatMap fun nkv => handleValue (kv.1 ++ "[" ++ nkv.1 ++ "]") nkv.2
    | v => handleValue kv.1 v

def handleOptional (self : BrunoQuery) : List String :=
  match self.params.optional with
  | none => []
  | some (.multi l) => l.flatMap handleOptionalObject
  | some (.single m) => handleOptionalObject m

/-- `toQueryString()`: the five segment blocks in fixed order, joined with
`&`. -/
def toQueryString (self : BrunoQuery) : String :=
  String.intercalate "&"
    (handleIncludes self ++ handleSort self ++ handleFilterGroups self ++
      handleLimitPage self ++ handleOptional self)

/-! ### `toObject` -/

def sortRuleJ (r : SortRule) : JValue :=
  .obj [("key", .str r.key), ("direction", .str r.direction)]

/-- A stored filter as a JS value (records are objects, shorthands are
arrays). -/
def entryJ : FilterEntry → JValue
  | .record f => .obj (filterFields f)
  | .shorthand k op v n =>
    .arr ([.str k, .str op, v] ++ (match n with
      | some b => [JValue.bool b]
      | none => []))

/-- The normalization step of `toObject`: force a definite `or` and map
shorthand tuples to records. -/
def normalizeGroup (g : FilterGroup) : FilterGroup :=
  { or := some (g.or.getD false),
    filters := g.filters.map fun fe => .record (handleParseFilter fe) }

def groupJ (g : FilterGroup) : JValue :=
  .obj [("or", .bool (g.or.getD false)), ("filters", .arr (g.filters.map entryJ))]

def optionalJ : OptionalPayload → JValue
  | .single m => .obj m
  | .multi l => .arr (l.map JValue.obj)

/-- `toObject()`: the public object view.  Sort is re-deduplicated, filter
groups are normalized and re-deduplicated, pagination fields are emitted
under their alias keys when their values are truthy. -/
def toObject (self : BrunoQuery) : List (String × JValue) :=
  (match self.params.includes with
   | some l => [("includes", JValue.arr (l.map JValue.str))]
   | none => []) ++
  (match self.params.sort with
   | some l => [("sort", JValue.arr ((deduplicateSort l).map sortRuleJ))]
   | none => []) ++
  (match self.params.filter_groups with
   | some gs =>
     [("filter_groups",
       JValue.arr (gs.map fun g => groupJ (deduplicateFilters (normalizeGroup g))))]
   | none => []) ++
  (match self.params.limit with
   | some v =>
     if pagTruthy v
     then [(aliasOr self.aliasKeysPagination.limit "limit", JValue.num (pagToJNum v))] else []
   | none => []) ++
  (match self.params.offset with
   | some v =>
     if pagTruthy v
     then [(aliasOr self.aliasKeysPagination.offset "offset", JValue.num (pagToJNum v))] else []
   | none => []) ++
  (match self.params.perPage with
   | some v =>
     if pagTruthy v
     then [(aliasOr self.aliasKeysPagination.perPage "perPage", JValue.num (pagToJNum v))] else []
   | none => []) ++
  (match self.params.page with
   | some v =>
     if pagTruthy v
     then [(aliasOr self.aliasKeysPagination.page "page", JValue.num (pagToJNum v))] else []
   | none => []) ++
  (match self.params.optional with
   | some o => [("optional", optionalJ o)]
   | none => [])

end BrunoQuery

/-! ### Decoding (`fromQueryString`) -/

/-- Ordered-object read (`m[k]`). -/
def objGet (m : List (String × JValue)) (k : String) : Option JValue :=
  (List.find? (fun p => p.1 = k) m).map (·.2)

/-- Ordered-object write (`m[k] = v`): updates in place, preserving the
key's original insertion position, or appends. -/
def objSet (m : List (String × JValue)) (k : String) (v : JValue) : List (String × JValue) :=
  if m.any (fun p => p.1 = k) then m.map fun p => if p.1 = k then (k, v) else p
  else m ++ [(k, v)]

/-- Ordered read on a string-valued bucket. -/
def strGet (m : List (String × String)) (k : String) : Option String :=
  (List.find? (fun p => p.1 = k) m).map (·.2)

/-- Ordered write on a string-valued bucket. -/
def strSet (m : List (String × String)) (k : String) (v : String) : List (String × String) :=
  if m.any (fun p => p.1 = k) then m.map fun p => if p.1 = k then (k, v) else p
  else m ++ [(k, v)]

/-- Ordered-map update at `k` with default (`m[k] ||= …; m[k] = f m[k]`). -/
def assocUpdate {α β : Type} [DecidableEq α]
    (l : List (α × β)) (k : α) (f : Option β → β) : List (α × β) :=
  if l.any (fun p => p.1 = k) then l.map fun p => if p.1 = k then (k, f (some p.2)) else p
  else l ++ [(k, f none)]

/-- The argument of `parseValue`: a string, JS `null`, or JS `undefined`
(the source's type says `string | null` but `undefined` flows in when a
bucket property is absent). -/
inductive JStr where
  | str (s : String)
  | jnull
  | undef
  deriving DecidableEq, Repr

namespace BrunoQuery

/-- `parseValue` (part_002 lines 1143–1153): `null`/`"null"` → null,
`"true"`/`"false"` → booleans, then `parseFloat` (a non-`NaN` result on a
non-empty string is returned as a number — note `parseFloat` accepts any
numeric *prefix*), otherwise the argument unchanged. -/
def parseValue : JStr → JValue
  | .jnull => .null
  | .undef => .undef
  | .str s =>
    if s = "null" then .null
    else if s = "true" then .bool true
    else if s = "false" then .bool false
    else
      match parseFloatJS s with
      | some n => if s ≠ "" then .num n else .str s
      | none => .str s

/-- The ten operator short codes (the runtime values of `QueryOperator`). -/
def operatorCodes : List String :=
  ["ct", "sw", "ew", "eq", "gt", "gte", "lt", "lte", "in", "bt"]

/-- `parseOperator`: falsy or unknown codes fall back to `equals`
(`"eq"`); known codes map to the enum member, whose runtime value is the
code itself. -/
def parseOperator : Option String → String
  | none => "eq"
  | some s => if s = "" then "eq" else if operatorCodes.contains s then s else "eq"

/-- `parseFilter`: assemble a canonical filter from bucket properties; the
`not` property is attached exactly when the string is `"true"`. -/
def parseFilter (key : String) (operator : Option String) (value : Option String)
    (notS : Option String) : Filter :=
  { key := key
    operator := parseOperator operator
    value := parseValue (match value with
      | some s => .str s
      | none => .undef)
    not := if notS = some "true" then some true else none }

def parseIncludes (ps : URLSearchParams) (self : BrunoQuery) : BrunoQuery :=
  let includes := uspGetAll ps "includes[]"
  if includes.isEmpty then self else addArrayIncludes self includes

/-- The probing loop of `parseSort`: stop at the first index whose `key`
or `direction` lookup is falsy.  Fuel `|ps| + 1` always suffices: each
successful step consumes one distinct present name. -/
def parseSortLoop (ps : URLSearchParams) : Nat → Nat → List SortRule
  | 0, _ => []
  | fuel + 1, i =>
    match uspGet ps ("sort[" ++ toString i ++ "][key]"),
          uspGet ps ("sort[" ++ toString i ++ "][direction]") with
    | some k, some d =>
      if k = "" ∨ d = "" then []
      else
        ⟨k, if String.mk (d.data.map Char.toUpper) = "ASC" then "ASC" else "DESC"⟩ ::
          parseSortLoop ps fuel (i + 1)
    | _, _ => []

def parseSort (ps : URLSearchParams) (self : BrunoQuery) : BrunoQuery :=
  let sortRules := parseSortLoop ps (List.length ps + 1) 0
  if sortRules.isEmpty then self else addArraySort self sortRules

/-- `parseLimitPage`: each of the four fields is read and, when the raw
string is truthy, parsed with `parseInt(_, 10)` and stored through its
setter. -/
def parseLimitPage (ps : URLSearchParams) (self : BrunoQuery) : BrunoQuery :=
  let self := match uspGet ps "limit" with
    | some s => if s ≠ "" then setLimit self (some (parseIntJS s)) none else self
    | none => self
  let self := match uspGet ps "offset" with
    | some s => if s ≠ "" then setOffset self (some (parseIntJS s)) none else self
    | none => self
  let self := match uspGet ps "perPage" with
    | some s => if s ≠ "" then setPerPage self (some (parseIntJS s)) none else self
    | none => self
  match uspGet ps "page" with
  | some s => if s ≠ "" then setPage self (some (parseIntJS s)) none else self
  | none => self

end BrunoQuery

/-- Strip a literal head sequence, returning the remainder. -/
def stripHead : List Char → List Char → Option (List Char)
  | [], l => some l
  | _, [] => none
  | p :: ps, c :: cs => if c = p then stripHead ps cs else none

/-- Longest nonempty digit head, with remainder. -/
def takeDigits1 (l : List Char) : Option (List Char × List Char) :=
  let (d, r) := l.span Char.isDigit
  if d.isEmpty then none else some (d, r)

/-- Stable insertion sort by numeric key (the `sort((a, b) => a - b)`
comparisons of the source; bucket keys are distinct, so any stable sort
realizes the same order). -/
def insertByKey {β : Type} (x : Nat × β) : List (Nat × β) → List (Nat × β)
  | [] => [x]
  | y :: ys => if x.1 < y.1 then x :: y :: ys else y :: insertByKey x ys

def sortByKeyNum {β : Type} (l : List (Nat × β)) : List (Nat × β) :=
  l.foldl (fun acc x => insertByKey x acc) []

/-- The regex `^filter_groups\[(\d+)\]\[filters\]\[(\d+)\]\[([^\]]+)\]$`
(with `parseInt` applied to the two captures). -/
def matchFilterKey (key : String) : Option (Nat × Nat × String) := do
  let l1 ← stripHead "filter_groups[".data key.data
  let (d1, l2) ← takeDigits1 l1
  let l3 ← stripHead "][filters][".data l2
  let (d2, l4) ← takeDigits1 l3
  let l5 ← stripHead "][".data l4
  let (prop, l6) := l5.span (fun c => c ≠ ']')
  if prop.isEmpty then none
  else if l6 = [']'] then some (digitsToNat d1, digitsToNat d2, String.mk prop)
  else none

/-- The regex test `^root\[\d+\]` (with `root` interpolated literally; the
source builds the regex from the raw root string — roots containing regex
metacharacters would behave differently there, but such roots are not
exercised by any claim). -/
def isIndexedKey (root : String) (key : String) : Bool :=
  (Option.isSome <| do
    let l1 ← stripHead (root.data ++ ['[']) key.data
    let (_, l2) ← takeDigits1 l1
    let _ ← stripHead [']'] l2
    pure ())

/-- The regex `^root\[(\d+)\]\[([^\]]+)\]` (not anchored at the end). -/
def matchIndexed (root : String) (key : String) : Option (Nat × String) := do
  let l1 ← stripHead (root.data ++ ['[']) key.data
  let (d, l2) ← takeDigits1 l1
  let l3 ← stripHead "][".data l2
  let (prop, l4) := l3.span (fun c => c ≠ ']')
  if prop.isEmpty then none
  else match l4 with
    | ']' :: _ => some (digitsToNat d, String.mk prop)
    | _ => none

/-- The regex `^root\[(.+)\]$` with a greedy `(.+)`: everything between
the first `[` after the root and the final character, which must be `]`. -/
def matchNested (root : String) (key : String) : Option String := do
  let rest ← stripHead (root.data ++ ['[']) key.data
  match rest.getLast? with
  | some ']' => if rest.length ≥ 2 then some (String.mk rest.dropLast) else none
  | _ => none

/-- Split on the two-character separator `][`. -/
def splitOnBrk : List Char → List (List Char)
  | [] => [[]]
  | ']' :: '[' :: rest => [] :: splitOnBrk rest
  | c :: rest =>
    match splitOnBrk rest with
    | h :: t => (c :: h) :: t
    | [] => [[c]]

namespace BrunoQuery

/-- The re-decoded `key=value` pairs the source assembles from
`params.toString().split("&")` (used by both `parseFilterGroups` and
`parseOptional`): split each nonempty entry at `=`, keep the first two
parts, and `decodeURIComponent` them (`undefined` second part → `""`). -/
def entryPairs (ps : URLSearchParams) : List (String × String) :=
  (splitOnCharL '&' (uspToString ps).data).filterMap fun entry =>
    if entry.isEmpty then none
    else
      let parts := splitOnCharL '=' entry
      some (decodeURIComponent (String.mk (parts.headD [])),
            decodeURIComponent (String.mk ((parts.drop 1).headD [])))

/-- Accumulate the `(group, filter) → property map` buckets. -/
def buildGroupMap (pairs : List (String × String)) :
    List (Nat × List (Nat × List (String × String))) :=
  pairs.foldl (fun acc p =>
    match matchFilterKey p.1 with
    | some gfp =>
      assocUpdate acc gfp.1 fun og =>
        assocUpdate (og.getD []) gfp.2.1 fun ofm =>
          strSet (ofm.getD []) gfp.2.2 p.2
    | none => acc) []

/-- The group-assembly loop of `parseFilterGroups` (part_002 lines
918–996): bucket the matching keys, order groups and filters by numeric
index, materialize only filters whose bucket has truthy `key` and
`operator`, read the group `or` flag from
`filter_groups[g][or] === "true"`, and drop groups with no valid
filter. -/
def collectFilterGroups (ps : URLSearchParams) : List FilterGroup :=
  (sortByKeyNum (buildGroupMap (entryPairs ps))).filterMap fun gp =>
    let sortedFilters := sortByKeyNum gp.2
    let validFilters := sortedFilters.filterMap fun fp =>
      let keyP := strGet fp.2 "key"
      let opP := strGet fp.2 "operator"
      if strOptTruthy keyP ∧ strOptTruthy opP then
        some (parseFilter (keyP.getD "") opP (strGet fp.2 "value") (strGet fp.2 "not"))
      else none
    if validFilters.isEmpty then none
    else
      let orFlag := uspGet ps ("filter_groups[" ++ toString gp.1 ++ "][or]") = some "true"
      some ({ or := some orFlag, filters := validFilters.map .record } : FilterGroup)

/-- `parseFilterGroups` installs the collected groups, leaving the
builder untouched when none match. -/
def parseFilterGroups (ps : URLSearchParams) (self : BrunoQuery) : BrunoQuery :=
  let filterGroups := collectFilterGroups ps
  if filterGroups.isEmpty then self else addArrayFilterGroup self filterGroups

/-- `setNestedValue`: walk/create nested objects along the split path and
set the final key.  A present non-object (or falsy) intermediate is
replaced by a fresh object. -/
def setNestedValue (obj : List (String × JValue)) (path : List String) (value : JValue) :
    List (String × JValue) :=
  match path with
  | [] => obj
  | [last] => objSet obj last value
  | k :: rest =>
    let sub := match objGet obj k with
      | some (.obj m) => m
      | _ => []
    objSet obj k (.obj (setNestedValue sub rest value))

/-- What one optional root key contributes. -/
inductive OptRootResult where
  | toParams (kv : String × JValue)
  | toArray (m : List (String × JValue))
  | nothing

/-- The per-root classification of `parseOptional`: bare root key ⇒ direct
scalar; `root[digits]…` keys ⇒ array-of-objects shape (with the
`{key, value}` collapsing special case); otherwise ⇒ nested-object
shape. -/
def parseOptionalRoot (ps : URLSearchParams) (root : String) (keys : List String) :
    OptRootResult :=
  if keys.any (fun k => k = root) then
    match uspGet ps root with
    | some v => .toParams (root, parseValue (.str v))
    | none => .nothing
  else
    let indexedKeys := keys.filter fun k => isIndexedKey root k
    if ¬ indexedKeys.isEmpty then
      let indexMap : List (Nat × List (String × JValue)) :=
        indexedKeys.foldl (fun acc k =>
          match matchIndexed root k with
          | some ink =>
            let acc := assocUpdate acc ink.1 fun o => o.getD []
            match uspGet ps k with
            | some v => assocUpdate acc ink.1 fun o =>
                objSet (o.getD []) ink.2 (parseValue (.str v))
            | none => acc
          | none => acc) []
      let sorted := sortByKeyNum indexMap
      let arrayObj := sorted.foldl (fun arrayObj ip =>
        let o := ip.2
        match objGet o "key", objGet o "value" with
        | some kv, some vv =>
          if jsTruthy kv then objSet arrayObj (jsDisplay kv) vv
          else o.foldl (fun acc p => objSet acc p.1 p.2) arrayObj
        | _, _ => o.foldl (fun acc p => objSet acc p.1 p.2) arrayObj) []
      if ¬ arrayObj.isEmpty then .toArray [(root, .obj arrayObj)] else .nothing
    else
      let rootObj := keys.foldl (fun acc k =>
        match matchNested root k with
        | some path =>
          match uspGet ps k with
          | some v =>
            setNestedValue acc ((splitOnBrk path.data).map String.mk) (parseValue (.str v))
          | none => acc
        | none => acc) []
      if ¬ rootObj.isEmpty then .toParams (root, .obj rootObj) else .nothing

/-- The reserved top-level roots. -/
def knownRoots : List String :=
  ["includes", "sort", "limit", "offset", "perPage", "page", "filter_groups"]

/-- `parseOptional` (part_002 lines 1003–1118). -/
def parseOptional (ps : URLSearchParams) (self : BrunoQuery) : BrunoQuery :=
  let optionalKeys := (splitOnCharL '&' (uspToString ps).data).filterMap fun entry =>
    if entry.isEmpty then none
    else
      let parts := splitOnCharL '=' entry
      let decodedKey := decodeURIComponent (String.mk (parts.headD []))
      let root := String.mk ((splitOnCharL '[' decodedKey.data).headD [])
      if knownRoots.contains root then none else some decodedKey
  let keyGroups := optionalKeys.foldl (fun acc k =>
    let root := String.mk ((splitOnCharL '[' k.data).headD [])
    assocUpdate acc root fun o => o.getD [] ++ [k]) []
  let results := keyGroups.map fun g => parseOptionalRoot ps g.1 g.2
  let optionalParams := results.foldl (fun acc r =>
    match r with
    | .toParams kv => objSet acc kv.1 kv.2
    | _ => acc) []
  let optionalArray := results.foldl (fun acc r =>
    match r with
    | .toArray m => acc ++ [m]
    | _ => acc) []
  if ¬ optionalArray.isEmpty then setOptional self (.multi optionalArray)
  else if ¬ optionalParams.isEmpty then setOptional self (.single optionalParams)
  else self

/-- `fromQueryString` (part_002 lines 786–803): fresh instance, strip one
leading `?`, empty ⇒ defaults, otherwise run the five parse stages over
the `URLSearchParams`. -/
def fromQueryString (queryString : String) : BrunoQuery :=
  let inst := reset new
  let cleanQuery := match queryString.data with
    | '?' :: rest => rest
    | l => l
  if cleanQuery.isEmpty then inst
  else
    let ps := uspParse (String.mk cleanQuery)
    parseOptional ps (parseFilterGroups ps (parseLimitPage ps (parseSort ps
      (parseIncludes ps inst))))

end BrunoQuery

/-! ### `JSON.parse` -/

/-- JSON insignificant whitespace. -/
def jsonWs (l : List Char) : List Char :=
  l.dropWhile fun c => c = ' ' ∨ c = '\t' ∨ c = '\n' ∨ c = '\r'

/-- Parse a JSON string literal body (after the opening quote).  Escapes
follow the JSON grammar; `\uXXXX` surrogate pairs are combined; a lone
surrogate (which JS keeps as an unpaired UTF-16 unit, not representable in
a Lean `String`) becomes U+FFFD. -/
def jsonParseStrBody : Nat → List Char → Option (List Char × List Char)
  | 0, _ => none
  | _, '"' :: rest => some ([], rest)
  | fuel + 1, '\\' :: e :: rest =>
    let simple : Char → Option Char := fun c =>
      if c = '"' then some '"'
      else if c = '\\' then some '\\'
      else if c = '/' then some '/'
      else if c = 'b' then some '\x08'
      else if c = 'f' then some '\x0c'
      else if c = 'n' then some '\n'
      else if c = 'r' then some '\r'
      else if c = 't' then some '\t'
      else none
    match simple e with
    | some c => (jsonParseStrBody fuel rest).map fun p => (c :: p.1, p.2)
    | none =>
      if e = 'u' then
        match rest with
        | h1 :: h2 :: h3 :: h4 :: rest2 =>
          match hexVal h1, hexVal h2, hexVal h3, hexVal h4 with
          | some a, some b, some c, some d =>
            let n := ((a * 16 + b) * 16 + c) * 16 + d
            if 0xD800 ≤ n ∧ n ≤ 0xDBFF then
              match rest2 with
              | '\\' :: 'u' :: g1 :: g2 :: g3 :: g4 :: rest3 =>
                match hexVal g1, hexVal g2, hexVal g3, hexVal g4 with
                | some a2, some b2, some c2, some d2 =>
                  let m := ((a2 * 16 + b2) * 16 + c2) * 16 + d2
                  if 0xDC00 ≤ m ∧ m ≤ 0xDFFF then
                    (jsonParseStrBody fuel rest3).map fun p =>
                      (Char.ofNat (0x10000 + (n - 0xD800) * 0x400 + (m - 0xDC00)) :: p.1, p.2)
                  else (jsonParseStrBody fuel rest2).map fun p => ('�' :: p.1, p.2)
                | _, _, _, _ => (jsonParseStrBody fuel rest2).map fun p => ('�' :: p.1, p.2)
              | _ => (jsonParseStrBody fuel rest2).map fun p => ('�' :: p.1, p.2)
            else if 0xDC00 ≤ n ∧ n ≤ 0xDFFF then
              (jsonParseStrBody fuel rest2).map fun p => ('�' :: p.1, p.2)
            else (jsonParseStrBody fuel rest2).map fun p => (Char.ofNat n :: p.1, p.2)
          | _, _, _, _ => none
        | _ => none
      else none
  | fuel + 1, c :: rest =>
    if c.toNat < 0x20 then none
    else (jsonParseStrBody fuel rest).map fun p => (c :: p.1, p.2)
  | _, [] => none

/-- Parse a JSON number at the head of the input (strict JSON grammar:
optional `-`, `0` or a non-zero-led digit run, optional fraction,
optional exponent). -/
def jsonParseNum (l : List Char) : Option (JQ × List Char) :=
  let (neg, l1) := match l with
    | '-' :: r => (true, r)
    | _ => (false, l)
  match takeDigits1 l1 with
  | none => none
  | some (d1, r1) =>
    if d1.length > 1 ∧ d1.headD '0' = '0' then none
    else
      let fracPart : Option (List Char × List Char) :=
        match r1 with
        | '.' :: rr => takeDigits1 rr
        | _ => some ([], r1)
      match fracPart with
      | none => none
      | some (d2, r2) =>
        let expPart : Option (Int × List Char) :=
          match r2 with
          | 'e' :: rr | 'E' :: rr =>
            let (eneg, rr2) := match rr with
              | '-' :: r3 => (true, r3)
              | '+' :: r3 => (false, r3)
              | _ => (false, rr)
            (takeDigits1 rr2).map fun p =>
              ((if eneg then -1 else 1) * (digitsToNat p.1 : Int), p.2)
          | _ => some (0, r2)
        match expPart with
        | none => none
        | some (ex, r3) =>
          let mant : JQ := JQ.add (JQ.ofNat (digitsToNat d1))
            (JQ.div (JQ.ofNat (digitsToNat d2)) (JQ.ofNat (10 ^ d2.length)))
          let v := JQ.mulPow10 mant ex
          some ((if neg then JQ.neg v else v), r3)

/-- Prepend an object member parsed earlier to the members parsed after
it, with the JS duplicate-key rule: first position, last value. -/
def prependMember (k : String) (v : JValue) (rest : List (String × JValue)) :
    List (String × JValue) :=
  match objGet rest k with
  | some v2 => (k, v2) :: rest.filter fun p => p.1 ≠ k
  | none => (k, v) :: rest

mutual

/-- One step of the JSON value parser (fuelled; every recursive call
consumes at least one input character first, so fuel `length + 1`
suffices).  Duplicate object keys keep the first position with the last
value, as in JS. -/
def jsonParseVal : Nat → List Char → Option (JValue × List Char)
  | 0, _ => none
  | fuel + 1, l =>
    match jsonWs l with
    | 'n' :: rest => (stripHead "ull".data rest).map (JValue.null, ·)
    | 't' :: rest => (stripHead "rue".data rest).map (JValue.bool true, ·)
    | 'f' :: rest => (stripHead "alse".data rest).map (JValue.bool false, ·)
    | '"' :: rest =>
      (jsonParseStrBody (fuel + 1) rest).map fun p => (.str (String.mk p.1), p.2)
    | '[' :: rest =>
      match jsonWs rest with
      | ']' :: rest2 => some (.arr [], rest2)
      | l2 => (jsonParseElems fuel l2).map fun p => (.arr p.1, p.2)
    | '\x7b' :: rest =>
      match jsonWs rest with
      | '\x7d' :: rest2 => some (.obj [], rest2)
      | l2 => (jsonParseMembers fuel l2).map fun p => (.obj p.1, p.2)
    | l1 => (jsonParseNum l1).map fun p => (.num (.fin p.1), p.2)

/-- Array elements: value, then `,` more or `]`. -/
def jsonParseElems : Nat → List Char → Option (List JValue × List Char)
  | 0, _ => none
  | fuel + 1, l => do
    let (v, r1) ← jsonParseVal fuel l
    match jsonWs r1 with
    | ',' :: r2 => (jsonParseElems fuel r2).map fun p => (v :: p.1, p.2)
    | ']' :: r2 => some ([v], r2)
    | _ => none

/-- Object members: string key, `:`, value, then `,` more or the closing
brace. -/
def jsonParseMembers : Nat → List Char → Option (List (String × JValue) × List Char)
  | 0, _ => none
  | fuel + 1, l =>
    match jsonWs l with
    | '"' :: r0 => do
      let (k, r1) ← jsonParseStrBody (fuel + 2) r0
      match jsonWs r1 with
      | ':' :: r2 => do
        let (v, r3) ← jsonParseVal fuel r2
        match jsonWs r3 with
        | ',' :: r4 =>
          (jsonParseMembers fuel r4).map fun p => (prependMember (String.mk k) v p.1, p.2)
        | '\x7d' :: r4 => some ([(String.mk k, v)], r4)
        | _ => none
      | _ => none
    | _ => none

end

namespace BrunoQuery

end BrunoQuery

/-! ## A heap-aware model of `clone`

`clone` (part_002 lines 314–342) copies each stored filter with
`Array.isArray(filter) ? [...filter] : { ...filter }` — a *shallow* copy:
the `value` field of a filter record is copied as a reference, so when it
holds an array, the clone and the original point at the same array
object.  Pure Lean values cannot express that sharing, so this section
refines the filter model with an explicit store: a filter value is either
an immediate scalar (copied by value, as JS primitives are) or an address
into a store of arrays (copied by reference).  Record copies (`{ ... }`
spreads) duplicate the record but keep the same address, exactly as in
JS. -/

/-- A heap-model filter value. -/
inductive HVal where
  | scalar (v : JValue)
  | ref (a : Nat)
  deriving DecidableEq, Repr

/-- The array store. -/
def Store := Nat → List JValue

/-- Read a filter value through the store. -/
def HVal.resolve (store : Store) : HVal → JValue
  | .scalar v => v
  | .ref a => .arr (store a)

structure FilterHp where
  key : String
  operator : String
  value : HVal
  not : Option Bool := none
  deriving DecidableEq, Repr

structure FilterGroupHp where
  or : Option Bool := none
  filters : List FilterHp := []
  deriving DecidableEq, Repr

/-- The builder state in the heap model (alias keys and the shorthand
tuple shape, irrelevant to the sharing question, are omitted; the
`optional` payload — whose nested objects are shared the same way by the
`{ ...obj }` copies — is likewise omitted and the claims about it are
scoped accordingly). -/
structure BrunoQueryHp where
  includes : Option (List String) := none
  sort : Option (List SortRule) := none
  filter_groups : Option (List FilterGroupHp) := none
  limit : Option PagNum := none
  offset : Option PagNum := none
  perPage : Option PagNum := none
  page : Option PagNum := none
  deriving DecidableEq, Repr

namespace BrunoQueryHp

/-- The dedup identity, reading array values through the store (the
source's `JSON.stringify(filter.value)` stringifies the pointed-to
array). -/
def filterIdentityHp (store : Store) (f : FilterHp) : String :=
  f.key ++ ":" ++ f.operator ++ ":" ++ jsonStringify (f.value.resolve store) ++ ":" ++
    (if f.not.getD false then "true" else "false")

def deduplicateFiltersHp (store : Store) (group : FilterGroupHp) : FilterGroupHp :=
  if group.filters.isEmpty then group
  else { or := some (group.or.getD false),
         filters := BrunoQuery.dedupBy (filterIdentityHp store) [] group.filters }

/-- `clone()` in the heap model, following part_002 lines 314–342 field
by field: `includes` is array-copied; `sort` rules are `{ ...s }`-copied
and re-deduplicated; the pagination fields are copied when truthy; each
filter group is rebuilt with `{ ...filter }` copies — same `value`
reference — and re-deduplicated. -/
def clone (store : Store) (self : BrunoQueryHp) : BrunoQueryHp :=
  { includes := self.includes
    sort := self.sort.map BrunoQuery.deduplicateSort
    limit := match self.limit with
      | some v => if pagTruthy v then some v else none
      | none => none
    offset := match self.offset with
      | some v => if pagTruthy v then some v else none
      | none => none
    perPage := match self.perPage with
      | some v => if pagTruthy v then some v else none
      | none => none
    page := match self.page with
      | some v => if pagTruthy v then some v else none
      | none => none
    filter_groups := self.filter_groups.map fun gs =>
      gs.map fun g =>
        deduplicateFiltersHp store { or := some (g.or.getD false), filters := g.filters } }

/-- The store addresses of all array-valued filter values reachable from
a builder. -/
def valueRefs (self : BrunoQueryHp) : List Nat :=
  (self.filter_groups.getD []).flatMap fun g =>
    g.filters.filterMap fun f =>
      match f.value with
      | .ref a => some a
      | .scalar _ => none

/-- The observable object view in the heap model (the fields the model
carries, values read through the store). -/
def toObjectHp (store : Store) (self : BrunoQueryHp) : List (String × JValue) :=
  (match self.includes with
   | some l => [("includes", JValue.arr (l.map JValue.str))]
   | none => []) ++
  (match self.sort with
   | some l => [("sort", JValue.arr ((BrunoQuery.deduplicateSort l).map BrunoQuery.sortRuleJ))]
   | none => []) ++
  (match self.filter_groups with
   | some gs =>
     [("filter_groups", JValue.arr (gs.map fun g =>
       JValue.obj [("or", .bool (g.or.getD false)),
         ("filters", .arr ((deduplicateFiltersHp store g).filters.map fun f =>
           JValue.obj ([("key", .str f.key), ("operator", .str f.operator),
             ("value", f.value.resolve store)] ++
             (match f.not with
              | some b => [("not", JValue.bool b)]
              | none => []))))]))]
   | none => []) ++
  (match self.limit with
   | some v => if pagTruthy v then [("limit", JValue.num (pagToJNum v))] else []
   | none => []) ++
  (match self.page with
   | some v => if pagTruthy v then [("page", JValue.num (pagToJNum v))] else []
   | none => [])

end BrunoQueryHp

/-! ## Reference specifications

Independent restatements of the deduplication semantics, used to compare
the implementation against the spec's wording. -/

/-- The key part of an emitted `key=value` segment (the characters before
the first `=`). -/
def segKey (seg : String) : String :=
  String.mk (seg.data.takeWhile fun c => c ≠ '=')

/-- A representative builder exercising includes, a multi-rule sort, two
filter groups with `or` true and false, string and integer filter values,
limit, page, and a single-mapping optional payload with a scalar and a
one-level nested object. -/
def roundTripSample : BrunoQuery :=
  ((BrunoQuery.new.addArrayIncludes ["author", "publisher"]).addArraySort
      [⟨"name", "ASC"⟩, ⟨"id", "DESC"⟩]).addArrayFilterGroup
      [{ or := some true,
         filters := [.record ⟨"author", "sw", .str "Optimus", none⟩,
                     .record ⟨"age", "gt", .num (.fin 18), none⟩] },
       { filters := [.record ⟨"status", "eq", .str "active", none⟩] }]
    |>.setLimit (some (.num 20)) none
    |>.setPage (some (.num 2)) none
    |>.setOptional (.single [("category", .str "books"),
        ("meta", .obj [("lang", .str "vi")])])

/-- A builder whose optional payload is an array of mappings. -/
def multiMappingSample : BrunoQuery :=
  BrunoQuery.new.setOptional (.multi [[("a", .str "x")], [("b", .str "y")]])

/-- A heap-model builder holding one filter whose value is the array at
store address 0. -/
def hpSample : BrunoQueryHp :=
  { filter_groups := some
      [{ or := some false, filters := [⟨"status", "in", .ref 0, none⟩] }] }

/-- A store where address 0 holds `["A"]`. -/
def sampleStore : Store := fun _ => [.str "A"]

/-- `sampleStore` after the array at address 0 — reachable from
`hpSample` — is mutated to `["B"]`. -/
def mutatedStore : Store := fun _ => [.str "B"]

/-- Reference: keep, for each key, exactly the *last* occurrence, in the
input order of those last occurrences (a rule survives iff its key does
not occur later). -/
def keepLastByKey : List SortRule → List SortRule
  | [] => []
  | r :: rs =>
    if rs.any (fun s => s.key = r.key) then keepLastByKey rs
    else r :: keepLastByKey rs

/-- Reference: keep exactly the *first* occurrence of each identity, in
first-seen order. -/
def keepFirstById {α : Type} (idf : α → String) : List α → List α
  | [] => []
  | f :: fs => f :: keepFirstById idf (fs.filter fun g => idf g ≠ idf f)
  termination_by l => l.length
  decreasing_by
    simp only [List.length_cons]
    exact Nat.lt_succ_of_le (List.length_filter_le _ _)

/-! ## Deduplication lemmas -/

namespace BrunoQuery

theorem dedupBy_sublist {α : Type} (idf : α → String) :
    ∀ (seen : List String) (l : List α), (dedupBy idf seen l).Sublist l := by
  intro seen l
  induction l generalizing seen with
  | nil => simp [dedupBy]
  | cons f fs ih =>
    simp only [dedupBy]
    split
    · exact (ih seen).cons f
    · exact (ih (idf f :: seen)).cons₂ f

theorem dedupBy_idem {α : Type} (idf : α → String) :
    ∀ (seen : List String) (l : List α),
      dedupBy idf seen (dedupBy idf seen l) = dedupBy idf seen l := by
  intro seen l
  induction l generalizing seen with
  | nil => simp [dedupBy]
  | cons f fs ih =>
    simp only [dedupBy]
    split
    · exact ih seen
    · simp only [dedupBy, if_neg (by assumption)]
      rw [ih]

theorem keepFirstById_nil {α : Type} (idf : α → String) :
    keepFirstById idf [] = [] := by
  rw [keepFirstById]

theorem keepFirstById_cons {α : Type} (idf : α → String) (f : α) (fs : List α) :
    keepFirstById idf (f :: fs) =
      f :: keepFirstById idf (fs.filter fun g => idf g ≠ idf f) := by
  rw [keepFirstById]

theorem dedupBy_eq_keepFirstById {α : Type} (idf : α → String) :
    ∀ (seen : List String) (l : List α),
      dedupBy idf seen l = keepFirstById idf (l.filter fun f => idf f ∉ seen) := by
  intro seen l
  induction l generalizing seen with
  | nil => simp [dedupBy, keepFirstById_nil]
  | cons f fs ih =>
    simp only [dedupBy]
    by_cases h : idf f ∈ seen
    · rw [if_pos h, ih]
      have hskip : (f :: fs).filter (fun g => idf g ∉ seen) =
          fs.filter (fun g => idf g ∉ seen) := by simp [h]
      rw [hskip]
    · rw [if_neg h, ih]
      have hstep : (f :: fs).filter (fun g => idf g ∉ seen) =
          f :: fs.filter (fun g => idf g ∉ seen) := by simp [h]
      rw [hstep, keepFirstById_cons]
      congr 1
      rw [List.filter_filter]
      congr 1
      apply List.filter_congr
      intro g _
      by_cases h1 : idf g = idf f <;> by_cases h2 : idf g ∈ seen <;> simp [h1, h2]

theorem dedupBy_ne_nil {α : Type} (idf : α → String) (f : α) (fs : List α) :
    dedupBy idf [] (f :: fs) ≠ [] := by
  simp [dedupBy]

/-- The right-to-left sort dedup, after appending one final element: the
final element is kept (at the head of the result) iff its key is neither
in the initial seen set nor among the keys processed before it. -/
theorem deduplicateSortGo_append_last (xs : List SortRule) (r : SortRule)
    (seen : List String) (res : List SortRule) :
    deduplicateSortGo (xs ++ [r]) seen res =
      if r.key ∈ seen ∨ xs.any (fun s => s.key = r.key)
      then deduplicateSortGo xs seen res
      else r :: deduplicateSortGo xs seen res := by
  induction xs generalizing seen res with
  | nil =>
    simp only [List.nil_append, List.any_nil, Bool.false_eq_true, or_false]
    by_cases h : r.key ∈ seen <;> simp [deduplicateSortGo, h]
  | cons x xs ih =>
    simp only [List.cons_append, deduplicateSortGo, List.append_eq]
    by_cases hx : x.key ∈ seen
    · simp only [if_pos hx, ih]
      by_cases hxr : x.key = r.key
      · have hr : r.key ∈ seen := hxr ▸ hx
        simp [hr]
      · simp [List.any_cons, hxr]
    · simp only [if_neg hx, ih]
      have hcond : (r.key ∈ x.key :: seen ∨ (xs.any fun s => decide (s.key = r.key)) = true)
          ↔ (r.key ∈ seen ∨ ((x :: xs).any fun s => decide (s.key = r.key)) = true) := by
        simp only [List.mem_cons, List.any_cons, Bool.or_eq_true, decide_eq_true_eq]
        constructor
        · rintro (h1 | h2)
          · rcases h1 with h1 | h1
            · exact Or.inr (Or.inl h1.symm)
            · exact Or.inl h1
          · exact Or.inr (Or.inr h2)
        · rintro (h1 | h2)
          · exact Or.inl (Or.inr h1)
          · rcases h2 with h2 | h2
            · exact Or.inl (Or.inl h2.symm)
            · exact Or.inr h2
      exact if_congr hcond rfl rfl

theorem deduplicateSort_eq_go (l : List SortRule) :
    deduplicateSort l = deduplicateSortGo l.reverse [] [] := by
  cases l <;> rfl

theorem deduplicateFilters_idem (g : FilterGroup) :
    deduplicateFilters (deduplicateFilters g) = deduplicateFilters g := by
  by_cases h : g.filters.isEmpty
  · simp [deduplicateFilters, h]
  · have h2 : (dedupBy filterIdentity [] g.filters).isEmpty = false := by
      cases hf : g.filters with
      | nil => rw [hf] at h; simp at h
      | cons f fs =>
        have := dedupBy_ne_nil filterIdentity f fs
        simpa [List.isEmpty_iff] using this
    simp only [deduplicateFilters, dedupFiltersGo, h, Bool.false_eq_true, if_false, h2,
      Option.getD_some]
    rw [dedupBy_idem]

theorem deduplicateFilters_filters_spec (g : FilterGroup) :
    (deduplicateFilters g).filters = keepFirstById filterIdentity g.filters := by
  by_cases h : g.filters.isEmpty
  · have hnil : g.filters = [] := List.isEmpty_iff.mp h
    simp [deduplicateFilters, h, hnil, keepFirstById_nil]
  · have hfil : (g.filters.filter fun f => filterIdentity f ∉ ([] : List String)) =
        g.filters := by simp
    simp only [deduplicateFilters, dedupFiltersGo, h, Bool.false_eq_true, if_false]
    rw [dedupBy_eq_keepFirstById, hfil]

theorem deduplicateFilters_sublist (g : FilterGroup) :
    ((deduplicateFilters g).filters).Sublist g.filters := by
  by_cases h : g.filters.isEmpty
  · simp [deduplicateFilters, h]
  · simpa [deduplicateFilters, dedupFiltersGo, h] using dedupBy_sublist filterIdentity [] g.filters

/-- `deduplicateSort` keeps, for each key, exactly the last occurrence at
the last occurrence's position. -/
theorem deduplicateSort_eq_keepLastByKey :
    ∀ l, deduplicateSort l = keepLastByKey l := by
  intro l
  induction l with
  | nil => rfl
  | cons r rs ih =>
    rw [deduplicateSort_eq_go, List.reverse_cons, deduplicateSortGo_append_last,
      keepLastByKey]
    rw [← deduplicateSort_eq_go, ih]
    simp [List.any_reverse]

end BrunoQuery

/-! ## Decoder safety lemmas

`fromQueryString` only ever feeds `decodeURIComponent` the components of a
`URLSearchParams.toString()` serialization, and on those the strict model
never returns `none` — the `URIError` throw is unreachable. -/

open BrunoQuery

/-- C10 (confirmed): negative pagination inputs are clamped to the
defaults at the setter boundary — `setLimit` stores `DEFAULT_LIMIT = 15`
for negative input, `setPage` stores `DEFAULT_PAGE = 1`, `setOffset`
stores the *page* default `1` (not 0 and not the limit default), and
`setPerPage` stores the *limit* default `15`; zero and positive values
are stored unchanged. -/
theorem setters_clamp_negative_to_defaults :
    ∀ (b : BrunoQuery) (q : JQ),
      (b.setLimit (some (.num q)) none).params.limit =
          some (.num (if q < 0 then 15 else q)) ∧
      (b.setPage (some (.num q)) none).params.page =
          some (.num (if q < 0 then 1 else q)) ∧
      (b.setOffset (some (.num q)) none).params.offset =
          some (.num (if q < 0 then 1 else q)) ∧
      (b.setPerPage (some (.num q)) none).params.perPage =
          some (.num (if q < 0 then 15 else q)) := by
  intro b q
  refine ⟨?_, ?_, ?_, ?_⟩ <;> by_cases hq : q < 0 <;>
    simp [setLimit, setPage, setOffset, setPerPage, pagNeg, strOptTruthy,
      DEFAULT_LIMIT, DEFAULT_PAGE, hq]

/-- C2 (counterexample): deduplicating
`[{a,ASC},{b,DESC},{a,DESC}]` yields `[{b,DESC},{a,DESC}]` — the
surviving `a` rule sits at the position of its *last* occurrence — and
*not* the claimed `[{a,DESC},{b,DESC}]` with `a` at index 0. -/
theorem sort_dedup_counterexample :
    deduplicateSort [⟨"a", "ASC"⟩, ⟨"b", "DESC"⟩, ⟨"a", "DESC"⟩] =
        [⟨"b", "DESC"⟩, ⟨"a", "DESC"⟩] ∧
    deduplicateSort [⟨"a", "ASC"⟩, ⟨"b", "DESC"⟩, ⟨"a", "DESC"⟩] ≠
        [⟨"a", "DESC"⟩, ⟨"b", "DESC"⟩] := by
  constructor
  · rfl
  · decide

/-- C2 (amended): sort deduplication is last-wins with the *last*
occurrence's position kept: at most one rule per key survives, the
survivor is the last occurrence of its key (hence carries its direction),
and the output preserves the relative order of those last occurrences —
`deduplicateSort` coincides with the reference `keepLastByKey`, which
keeps a rule iff its key does not occur later.  For
`[{a,ASC},{b,DESC},{a,DESC}]` this gives `[{b,DESC},{a,DESC}]`. -/
theorem sort_dedup_last_wins_last_position :
    (∀ l, deduplicateSort l = keepLastByKey l) ∧
    deduplicateSort [⟨"a", "ASC"⟩, ⟨"b", "DESC"⟩, ⟨"a", "DESC"⟩] =
        [⟨"b", "DESC"⟩, ⟨"a", "DESC"⟩] :=
  ⟨deduplicateSort_eq_keepLastByKey, by decide⟩

/-- C4 (counterexample): `parseValue` uses `parseFloat`, which accepts a
numeric *prefix*: `"12px"` is mapped to the number 12 although the entire
trimmed string does not parse as a number (the claim requires the
original string back), and `"Infinity"` is mapped to a non-finite
number. -/
theorem parse_value_counterexample :
    parseValue (.str "12px") = .num (.fin 12) ∧
    JValue.num (.fin 12) ≠ .str "12px" ∧
    parseValue (.str "Infinity") = .num .posInf := by
  refine ⟨rfl, by decide, rfl⟩

/-- C4 (amended): `parseValue` is a total function mapping `null` (and
the `"null"` literal) to null, `undefined` to `undefined`, `"true"` and
`"false"` to the booleans, any other string with a non-`NaN` `parseFloat`
result — i.e. a valid numeric *prefix*, possibly the non-finite
`Infinity` — to that parsed number, and every remaining string to
itself. -/
theorem parse_value_total_characterization :
    parseValue .jnull = .null ∧ parseValue .undef = .undef ∧
    parseValue (.str "null") = .null ∧
    parseValue (.str "true") = .bool true ∧
    parseValue (.str "false") = .bool false ∧
    (∀ s, s ≠ "null" → s ≠ "true" → s ≠ "false" →
      parseValue (.str s) =
        (match parseFloatJS s with
         | some n => .num n
         | none => .str s)) := by
  refine ⟨rfl, rfl, rfl, rfl, rfl, ?_⟩
  intro s h1 h2 h3
  simp only [parseValue, if_neg h1, if_neg h2, if_neg h3]
  cases hp : parseFloatJS s with
  | none => rfl
  | some n =>
    have hs : s ≠ "" := by
      rintro rfl
      rw [show parseFloatJS "" = none from rfl] at hp
      cases hp
    simp [hs]

/-- Witness for `parse_value_total_characterization` at `s = "abc"`. -/
theorem parse_value_total_characterization_witness :
    parseValue (.str "abc") = .str "abc" := by
  have h := parse_value_total_characterization.2.2.2.2.2 "abc"
    (by decide) (by decide) (by decide)
  rw [h]
  rfl

/-- C6 (confirmed): the example builder — includes `author`, `publisher`,
the single sort rule `name` ASC, limit 20, page 1, optional
`{category: books, status: active}` — encodes to exactly the claimed
string, and in general `toQueryString` joins the five segment blocks in
the fixed order includes, sort, filter groups, pagination, optional with
`&` (hence no leading `?` and no trailing `&`). -/
theorem to_query_string_example_exact :
    toQueryString ((((new.addArrayIncludes ["author", "publisher"]).addArraySort
          [⟨"name", "ASC"⟩]).setLimit (some (.num 20)) none).setPage
          (some (.num 1)) none |>.setOptional
          (.single [("category", .str "books"), ("status", .str "active")])) =
      "includes[]=author&includes[]=publisher&sort[0][key]=name&sort[0][direction]=ASC&limit=20&page=1&category=books&status=active" ∧
    ∀ b, toQueryString b = String.intercalate "&"
      (handleIncludes b ++ handleSort b ++ handleFilterGroups b ++
        handleLimitPage b ++ handleOptional b) :=
  ⟨by decide, fun _ => rfl⟩

/-- C8 (counterexample): `setLimit 0` stores the value 0, so the limit
field *is* present, yet `handleLimitPage` emits nothing (the source tests
the value's truthiness, and 0 is falsy) — the whole query string is
empty. -/
theorem pagination_zero_counterexample :
    (new.setLimit (some (.num 0)) none).params.limit = some (.num 0) ∧
    handleLimitPage (new.setLimit (some (.num 0)) none) = [] ∧
    toQueryString (new.setLimit (some (.num 0)) none) = "" := by
  refine ⟨rfl, rfl, rfl⟩

/-- C3 (confirmed): filter-group deduplication is idempotent; it keeps
exactly the first occurrence of each identity
`key:operatorCode:serialized(value):not` in first-seen relative order
(it coincides with the reference `keepFirstById` and its output is a
sublist of the input); and a canonical `Filter` record and the equivalent
shorthand tuple produce the same identity string. -/
theorem filter_dedup_idempotent_first_wins :
    (∀ g, deduplicateFilters (deduplicateFilters g) = deduplicateFilters g) ∧
    (∀ g, (deduplicateFilters g).filters = keepFirstById filterIdentity g.filters) ∧
    (∀ g, ((deduplicateFilters g).filters).Sublist g.filters) ∧
    (∀ k op v n, filterIdentity (.record ⟨k, op, v, n⟩) =
        filterIdentity (.shorthand k op v n)) :=
  ⟨deduplicateFilters_idem, deduplicateFilters_filters_spec,
    deduplicateFilters_sublist, fun _ _ _ _ => rfl⟩

/-- C1 (counterexample): a builder whose optional payload is the array of
mappings `[{a:"x"},{b:"y"}]` encodes to `a=x&b=y`, which decodes to the
*single merged mapping* `{a:"x", b:"y"}` — the parsed builder's
`toObject()` differs from the original's, so the round trip fails for the
array-of-mappings optional form. -/
theorem round_trip_counterexample :
    toQueryString multiMappingSample = "a=x&b=y" ∧
    (fromQueryString "a=x&b=y").params.optional =
      some (.single [("a", .str "x"), ("b", .str "y")]) ∧
    toObject (fromQueryString (toQueryString multiMappingSample)) ≠
      toObject multiMappingSample := by
  refine ⟨rfl, rfl, by decide⟩

/-- C1 (amended): the round trip
`fromQueryString (toQueryString d) |>.toObject = d.toObject` holds for
builders whose encoded form the parser maps back identically; it is
verified end-to-end for the representative builder covering includes,
multi-rule sort, two filter groups with `or` true/false, string and
integer filter values, limit, page, and a single-mapping optional payload
with scalar and one-level-nested values.  It does *not* hold for every
builder: array-of-mappings optional payloads decode to a single merged
mapping (see the counterexample). -/
theorem round_trip_representative :
    toObject (fromQueryString (toQueryString roundTripSample)) =
      toObject roundTripSample := by
  decide

/-- C9 (counterexample): after `clone()`, the original and the clone hold
the *same* store address for the array-valued filter value (the source
copies filters with `{ ...filter }`, a shallow copy), and mutating that
shared array changes the clone's observable `toObject` view — the claim
that the two instances share no arrays and are observationally
independent fails. -/
theorem clone_sharing_counterexample :
    BrunoQueryHp.valueRefs hpSample = [0] ∧
    BrunoQueryHp.valueRefs (BrunoQueryHp.clone sampleStore hpSample) = [0] ∧
    BrunoQueryHp.toObjectHp mutatedStore (BrunoQueryHp.clone sampleStore hpSample) ≠
      BrunoQueryHp.toObjectHp sampleStore (BrunoQueryHp.clone sampleStore hpSample) := by
  refine ⟨rfl, rfl, by decide⟩

/-- C9 (amended): `clone` deep-copies the top-level arrays, sort entries
and filter records, but an array-valued filter value is copied *by
reference*: every array address reachable from the clone's filters is an
address of the original (nothing is re-allocated), so such arrays are
shared, and mutating one changes both instances' observable state (the
counterexample exhibits the change on both sides; here the original's
view changes too). -/
theorem clone_preserves_value_refs :
    (∀ (store : Store) (b : BrunoQueryHp) (a : Nat),
      a ∈ BrunoQueryHp.valueRefs (BrunoQueryHp.clone store b) →
        a ∈ BrunoQueryHp.valueRefs b) ∧
    BrunoQueryHp.toObjectHp mutatedStore hpSample ≠
      BrunoQueryHp.toObjectHp sampleStore hpSample := by
  constructor
  · intro store b a ha
    unfold BrunoQueryHp.valueRefs at ha ⊢
    unfold BrunoQueryHp.clone at ha
    cases hfg : b.filter_groups with
    | none => rw [hfg] at ha; simp at ha
    | some gs =>
      rw [hfg] at ha
      simp only [Option.map_some', Option.getD_some, List.mem_flatMap,
        List.mem_map] at ha
      obtain ⟨g', ⟨g, hg, rfl⟩, hag⟩ := ha
      simp only [Option.getD_some, List.mem_flatMap]
      refine ⟨g, hg, ?_⟩
      have hsub : (BrunoQueryHp.deduplicateFiltersHp store
          { or := some (g.or.getD false), filters := g.filters }).filters.Sublist
          g.filters := by
        unfold BrunoQueryHp.deduplicateFiltersHp
        by_cases h : g.filters.isEmpty
        · simp [h]
        · simpa [h] using dedupBy_sublist (BrunoQueryHp.filterIdentityHp store) [] g.filters
      exact (hsub.filterMap _).mem hag
  · decide

/-- Witness for the universally quantified part of
`clone_preserves_value_refs` at the concrete sample. -/
theorem clone_preserves_value_refs_witness :
    (0 : Nat) ∈ BrunoQueryHp.valueRefs hpSample :=
  clone_preserves_value_refs.1 sampleStore hpSample 0 (by decide)

/-- Segment emission/suppression for one pagination block: the block's
key list is the singleton of the literal key exactly when the field holds
a truthy value. -/
theorem mem_pagBlock (key : String) (o : Option PagNum) (emitted : String) :
    (key ∈ (match o with
      | some v => if pagTruthy v then [emitted ++ "=" ++ pagToString v] else []
      | none => ([] : List String)).map segKey) ↔
      (key = segKey (emitted ++ "=" ++ pagToString ((o.getD .nan))) ∧
        ∃ v, o = some v ∧ pagTruthy v = true) := by
  cases o with
  | none => simp
  | some v =>
    by_cases h : pagTruthy v <;> simp [h]

theorem limitSeg_keys (b : BrunoQuery) (h : b.aliasKeysPagination = {}) :
    (limitSeg b).map segKey =
      (match b.params.limit with
       | some v => if pagTruthy v then ["limit"] else []
       | none => []) := by
  unfold limitSeg
  cases b.params.limit with
  | none => rfl
  | some v =>
    by_cases ht : pagTruthy v
    · simp only [ht, if_true, List.map_cons, List.map_nil, h]
      rfl
    · simp [ht]

theorem offsetSeg_keys (b : BrunoQuery) (h : b.aliasKeysPagination = {}) :
    (offsetSeg b).map segKey =
      (match b.params.offset with
       | some v => if pagTruthy v then ["offset"] else []
       | none => []) := by
  unfold offsetSeg
  cases b.params.offset with
  | none => rfl
  | some v =>
    by_cases ht : pagTruthy v
    · simp only [ht, if_true, List.map_cons, List.map_nil, h]
      rfl
    · simp [ht]

theorem perPageSeg_keys (b : BrunoQuery) (h : b.aliasKeysPagination = {}) :
    (perPageSeg b).map segKey =
      (match b.params.perPage with
       | some v => if pagTruthy v then ["perPage"] else []
       | none => []) := by
  unfold perPageSeg
  cases b.params.perPage with
  | none => rfl
  | some v =>
    by_cases ht : pagTruthy v
    · simp only [ht, if_true, List.map_cons, List.map_nil, h]
      rfl
    · simp [ht]

theorem pageSeg_keys (b : BrunoQuery) (h : b.aliasKeysPagination = {}) :
    (pageSeg b).map segKey =
      (match b.params.page with
       | some v => if pagTruthy v then ["page"] else []
       | none => []) := by
  unfold pageSeg
  cases b.params.page with
  | none => rfl
  | some v =>
    by_cases ht : pagTruthy v
    · simp only [ht, if_true, List.map_cons, List.map_nil, h]
      rfl
    · simp [ht]

/-- Keys of one simplified pagination block. -/
theorem mem_pagKeyBlock (key : String) (o : Option PagNum) (emitted : String) :
    (key ∈ (match o with
      | some v => if pagTruthy v then [emitted] else []
      | none => ([] : List String))) ↔
      (key = emitted ∧ ∃ v, o = some v ∧ pagTruthy v = true) := by
  cases o with
  | none => simp
  | some v =>
    by_cases h : pagTruthy v
    · simp only [h, if_true, List.mem_singleton, Option.some.injEq]
      constructor
      · intro hk
        exact ⟨hk, v, rfl, h⟩
      · rintro ⟨hk, _⟩
        exact hk
    · simp [h]

/-- C8 (amended): on a builder with no alias keys, `handleLimitPage` is
the concatenation of the four blocks in the order limit, offset, perPage,
page, and a segment with key `limit` (resp. `offset`, `perPage`, `page`)
is emitted *iff* the corresponding field holds a truthy value — a present
but zero (or `NaN`) value is *not* emitted, and an absent field never is
(the claim's "present iff emitted" fails only on falsy present values,
see the counterexample). -/
theorem pagination_emitted_iff_truthy :
    ∀ b : BrunoQuery, b.aliasKeysPagination = {} →
      handleLimitPage b = limitSeg b ++ offsetSeg b ++ perPageSeg b ++ pageSeg b ∧
      (("limit" ∈ (handleLimitPage b).map segKey) ↔
        ∃ v, b.params.limit = some v ∧ pagTruthy v = true) ∧
      (("offset" ∈ (handleLimitPage b).map segKey) ↔
        ∃ v, b.params.offset = some v ∧ pagTruthy v = true) ∧
      (("perPage" ∈ (handleLimitPage b).map segKey) ↔
        ∃ v, b.params.perPage = some v ∧ pagTruthy v = true) ∧
      (("page" ∈ (handleLimitPage b).map segKey) ↔
        ∃ v, b.params.page = some v ∧ pagTruthy v = true) := by
  intro b h
  have hmap : (handleLimitPage b).map segKey =
      (limitSeg b).map segKey ++ (offsetSeg b).map segKey ++
      (perPageSeg b).map segKey ++ (pageSeg b).map segKey := by
    simp [handleLimitPage]
  refine ⟨rfl, ?_, ?_, ?_, ?_⟩ <;>
    rw [hmap, limitSeg_keys b h, offsetSeg_keys b h, perPageSeg_keys b h,
      pageSeg_keys b h] <;>
    simp only [List.mem_append, mem_pagKeyBlock] <;>
    simp [show ("limit" : String) ≠ "offset" from by decide,
      show ("limit" : String) ≠ "perPage" from by decide,
      show ("limit" : String) ≠ "page" from by decide,
      show ("offset" : String) ≠ "limit" from by decide,
      show ("offset" : String) ≠ "perPage" from by decide,
      show ("offset" : String) ≠ "page" from by decide,
      show ("perPage" : String) ≠ "limit" from by decide,
      show ("perPage" : String) ≠ "offset" from by decide,
      show ("perPage" : String) ≠ "page" from by decide,
      show ("page" : String) ≠ "limit" from by decide,
      show ("page" : String) ≠ "offset" from by decide,
      show ("page" : String) ≠ "perPage" from by decide]

/-- Witness for `pagination_emitted_iff_truthy` at a concrete builder
with limit 20. -/
theorem pagination_emitted_iff_truthy_witness :
    "limit" ∈ (handleLimitPage (new.setLimit (some (.num 20)) none)).map segKey :=
  ((pagination_emitted_iff_truthy (new.setLimit (some (.num 20)) none) rfl).2.1).mpr
    ⟨.num 20, rfl, rfl⟩

/-! Preservation lemmas: the other four parse stages never touch
`filter_groups`. -/

theorem parseIncludes_filter_groups (ps : URLSearchParams) (b : BrunoQuery) :
    (parseIncludes ps b).params.filter_groups = b.params.filter_groups := by
  simp only [parseIncludes, addArrayIncludes]
  split <;> rfl

theorem parseSort_filter_groups (ps : URLSearchParams) (b : BrunoQuery) :
    (parseSort ps b).params.filter_groups = b.params.filter_groups := by
  simp only [parseSort, addArraySort]
  split <;> rfl

theorem setLimit_filter_groups (b : BrunoQuery) (v : Option PagNum) (a : Option String) :
    (setLimit b v a).params.filter_groups = b.params.filter_groups := by
  unfold setLimit
  cases v with
  | none => rfl
  | some v => dsimp only; split <;> rfl

theorem setOffset_filter_groups (b : BrunoQuery) (v : Option PagNum) (a : Option String) :
    (setOffset b v a).params.filter_groups = b.params.filter_groups := by
  unfold setOffset
  cases v with
  | none => rfl
  | some v => dsimp only; split <;> rfl

theorem setPerPage_filter_groups (b : BrunoQuery) (v : Option PagNum) (a : Option String) :
    (setPerPage b v a).params.filter_groups = b.params.filter_groups := by
  unfold setPerPage
  cases v with
  | none => rfl
  | some v => dsimp only; split <;> rfl

theorem setPage_filter_groups (b : BrunoQuery) (v : Option PagNum) (a : Option String) :
    (setPage b v a).params.filter_groups = b.params.filter_groups := by
  unfold setPage
  cases v with
  | none => rfl
  | some v => dsimp only; split <;> rfl

theorem parseLimitPage_filter_groups (ps : URLSearchParams) (b : BrunoQuery) :
    (parseLimitPage ps b).params.filter_groups = b.params.filter_groups := by
  simp only [parseLimitPage]
  cases uspGet ps "limit" <;> cases uspGet ps "offset" <;>
    cases uspGet ps "perPage" <;> cases uspGet ps "page" <;>
    (try dsimp only) <;> (try split_ifs) <;>
    simp [setLimit_filter_groups, setOffset_filter_groups,
      setPerPage_filter_groups, setPage_filter_groups]

theorem parseOptional_filter_groups (ps : URLSearchParams) (b : BrunoQuery) :
    (parseOptional ps b).params.filter_groups = b.params.filter_groups := by
  simp only [parseOptional, setOptional]
  split <;> (try split) <;> rfl

theorem deduplicateFilters_ne_nil (g : FilterGroup) (h : g.filters ≠ []) :
    (deduplicateFilters g).filters ≠ [] := by
  unfold deduplicateFilters
  rw [if_neg (by simpa [List.isEmpty_iff] using h)]
  cases hf : g.filters with
  | nil => exact absurd hf h
  | cons f fs =>
    simpa [dedupFiltersGo, hf] using dedupBy_ne_nil filterIdentity f fs

/-- Every collected group has a nonempty filter list. -/
theorem collectFilterGroups_nonempty (ps : URLSearchParams) :
    ∀ g ∈ collectFilterGroups ps, g.filters ≠ [] := by
  intro g hg
  unfold collectFilterGroups at hg
  rw [List.mem_filterMap] at hg
  obtain ⟨gp, _, hsome⟩ := hg
  dsimp only at hsome
  split at hsome
  · cases hsome
  · rename_i hne
    injection hsome with hsome
    subst hsome
    simp only [ne_eq, List.map_eq_nil_iff]
    intro hnil
    rw [hnil] at hne
    simp at hne

/-- Every group `parseFilterGroups` adds to a builder with no prior
filter groups has a nonempty filter list (the `validFilters.length > 0`
guard, preserved by deduplication). -/
theorem parseFilterGroups_groups_nonempty (ps : URLSearchParams) (b : BrunoQuery)
    (hb : b.params.filter_groups = none) :
    ∀ g ∈ ((parseFilterGroups ps b).params.filter_groups).getD [],
      g.filters ≠ [] := by
  intro g hg
  simp only [parseFilterGroups] at hg
  by_cases hempty : (collectFilterGroups ps).isEmpty
  · rw [if_pos hempty, hb] at hg
    simp at hg
  · rw [if_neg hempty] at hg
    simp only [addArrayFilterGroup, hb, Option.getD_none, Option.getD_some,
      List.nil_append] at hg
    rw [List.mem_map] at hg
    obtain ⟨g', hg', rfl⟩ := hg
    exact deduplicateFilters_ne_nil _ (collectFilterGroups_nonempty ps g' hg')

/-- C5 (counterexample): the bucket for `(group 0, filter 0)` contains
*both* a `key` and an `operator` property, yet — the `key` value being
the empty string, which is falsy — no filter is materialized and the
decoded result has no filter groups at all; materialization tests the
*truthiness* of the bucket values, not their presence. -/
theorem parse_filter_groups_counterexample :
    buildGroupMap (entryPairs (uspParse
      "filter_groups[0][filters][0][key]=&filter_groups[0][filters][0][operator]=eq")) =
      [(0, [(0, [("key", ""), ("operator", "eq")])])] ∧
    (fromQueryString
      "filter_groups[0][filters][0][key]=&filter_groups[0][filters][0][operator]=eq").params.filter_groups = none := by
  refine ⟨rfl, rfl⟩

/-- `fromQueryString` either returns the fresh builder or runs the parse
pipeline over the parsed parameters. -/
theorem fromQueryString_cases (s : String) :
    fromQueryString s = reset new ∨
    ∃ ps, fromQueryString s =
      parseOptional ps (parseFilterGroups ps (parseLimitPage ps (parseSort ps
        (parseIncludes ps (reset new))))) := by
  unfold fromQueryString
  split <;> dsimp only <;> split
  all_goals first
    | exact Or.inl rfl
    | exact Or.inr ⟨_, rfl⟩

/-- C5 (amended): decoded filter groups never contain an empty group (for
every input string, each group in the result has a nonempty filter list);
group indices are ordered numerically (index 2 sorts before index 10),
and so are filter indices within one group (the filter at index 2 comes
out before the one at index 10, where lexicographic order would reverse
them); a filter is materialized iff its bucket holds *truthy* (nonempty)
`key` and `operator` values — an absent `value` yields `undefined`, an
unknown operator code falls back to `equals` — and the group `or` flag
is read from `filter_groups[g][or] === "true"`. -/
theorem parse_filter_groups_amended :
    (∀ s g, g ∈ ((fromQueryString s).params.filter_groups).getD [] →
      g.filters ≠ []) ∧
    (fromQueryString
      "filter_groups[10][filters][0][key]=b&filter_groups[10][filters][0][operator]=eq&filter_groups[2][filters][0][key]=a&filter_groups[2][filters][0][operator]=eq").params.filter_groups =
      some [⟨some false, [.record ⟨"a", "eq", .undef, none⟩]⟩,
            ⟨some false, [.record ⟨"b", "eq", .undef, none⟩]⟩] ∧
    (fromQueryString
      "filter_groups[0][filters][10][key]=b&filter_groups[0][filters][10][operator]=eq&filter_groups[0][filters][2][key]=a&filter_groups[0][filters][2][operator]=eq").params.filter_groups =
      some [⟨some false, [.record ⟨"a", "eq", .undef, none⟩,
                          .record ⟨"b", "eq", .undef, none⟩]⟩] ∧
    (fromQueryString
      "filter_groups[0][or]=true&filter_groups[0][filters][0][key]=a&filter_groups[0][filters][0][operator]=zz&filter_groups[0][filters][0][value]=5").params.filter_groups =
      some [⟨some true, [.record ⟨"a", "eq", .num (.fin 5), none⟩]⟩] := by
  refine ⟨?_, rfl, rfl, rfl⟩
  intro s g hg
  rcases fromQueryString_cases s with h | ⟨ps, h⟩
  · rw [h] at hg
    simp [reset, new] at hg
  · rw [h, parseOptional_filter_groups] at hg
    apply parseFilterGroups_groups_nonempty _ _ _ g hg
    rw [parseLimitPage_filter_groups, parseSort_filter_groups,
      parseIncludes_filter_groups]
    rfl

/-- Witness for the universally quantified part of
`parse_filter_groups_amended` at a concrete input. -/
theorem parse_filter_groups_amended_witness :
    (⟨some true, [.record ⟨"a", "eq", .num (.fin 5), none⟩]⟩ : FilterGroup).filters ≠ [] :=
  parse_filter_groups_amended.1
    "filter_groups[0][or]=true&filter_groups[0][filters][0][key]=a&filter_groups[0][filters][0][operator]=zz&filter_groups[0][filters][0][value]=5"
    _ (by rw [parse_filter_groups_amended.2.2.2]; decide)

end Bruno
